import Mathlib

/-!
Verification development for the file-sandbox core of the digital-organiser
repository: the in-memory tree model (`src/renderer/fileSandbox/tree.ts`),
the path utilities (`src/renderer/fileSandbox/path.ts`), the diff generator
(`src/renderer/fileSandbox/diff.ts`) and the diff executor
(`src/main/diffExecutor.ts`) are embedded shallowly as executable Lean
functions, and the specified properties are settled as theorems.

Modelling conventions:
* JavaScript `Map` objects become association lists (`List (String × α)`)
  with insertion-order iteration, first-match lookup, in-place update on
  `set` of an existing key, and append on `set` of a fresh key.
* `string | null` / optional fields become `Option String`; JavaScript
  truthiness of such a value (`if (x)`) is `x` being non-null and non-empty.
* Functions that throw become `Except`; the mutating tree operations return
  the tree state as it stands at the moment of the throw
  (`Except (TreeError × SandboxTree) …`), so that atomicity on error is an
  observable property of the model.
* Unbounded loops over parent chains / child graphs (which diverge in the
  source on cyclic inputs) take a fuel argument; fuel exhaustion is the
  model of divergence and is reported as `TreeError.outOfFuel` (or `none`).
* The decimal rendering of a number by a template literal is modelled by
  `natToString`, a fuel-based base-10 renderer.
-/

/-- Node kind, `NodeKind` of `src/types/snapshot.ts`. -/
inductive NodeKind where
  | file
  | folder
deriving DecidableEq, Repr

/-- In-memory tree node, `SandboxNode` of `tree.ts`. -/
structure SandboxNode where
  id : String
  name : String
  kind : NodeKind
  parentId : Option String
  children : List String
  fromSnapshot : Bool
  originalName : Option String
  originalParentId : Option (Option String)
deriving DecidableEq, Repr

/-- Self-contained subtree fragment, `SerializedSandboxNode` of `tree.ts`. -/
inductive SerializedSandboxNode where
  | mk (id : String) (name : String) (kind : NodeKind) (parentId : Option String)
      (fromSnapshot : Bool) (originalName : Option String)
      (originalParentId : Option (Option String))
      (children : List SerializedSandboxNode)

/-- Recorded original state of a node, value type of `tree.originalNodes`. -/
structure OriginalNode where
  name : String
  parentId : Option String
  kind : NodeKind
deriving DecidableEq, Repr

/-- Association-list model of a JavaScript `Map`: first-match lookup. -/
def mapGet? (m : List (String × α)) (k : String) : Option α :=
  (m.find? (fun p => p.1 = k)).map (fun p => p.2)

/-- Key-membership test, models `Map.prototype.has`. -/
def mapHas (m : List (String × α)) (k : String) : Bool :=
  (mapGet? m k).isSome

/-- Models `Map.prototype.set`: update in place when the key exists (keeping
its position in iteration order), append otherwise. -/
def mapSet (m : List (String × α)) (k : String) (v : α) : List (String × α) :=
  if mapHas m k then
    m.map (fun p => if p.1 = k then (k, v) else p)
  else
    m ++ [(k, v)]

/-- Models `Map.prototype.delete`. -/
def mapDelete (m : List (String × α)) (k : String) : List (String × α) :=
  m.filter (fun p => p.1 ≠ k)

/-- Tree state, `SandboxTree` of `tree.ts`. -/
structure SandboxTree where
  nodes : List (String × SandboxNode)
  rootId : String
  snapshotRootPath : String
  originalPaths : List (String × String)
  originalNodes : List (String × OriginalNode)
  nextLocalId : Nat
  diffSequence : Nat
deriving DecidableEq, Repr

/-- JavaScript truthiness of a `string | null | undefined` value: present and
non-empty. -/
def strTruthy : Option String → Bool
  | none => false
  | some s => s ≠ ""

/-- Base-10 digits of a number, most significant first; the fuel argument
makes the recursion structural (`fuel ≥ n` always suffices). -/
def toDecimalAux : Nat → Nat → List Nat
  | 0, n => [n % 10]
  | fuel + 1, n => if n < 10 then [n] else toDecimalAux fuel (n / 10) ++ [n % 10]

/-- Base-10 digits of a number, most significant first. -/
def toDecimal (n : Nat) : List Nat :=
  toDecimalAux n n

/-- Character for a single decimal digit. -/
def decChar : Nat → Char
  | 0 => '0'
  | 1 => '1'
  | 2 => '2'
  | 3 => '3'
  | 4 => '4'
  | 5 => '5'
  | 6 => '6'
  | 7 => '7'
  | 8 => '8'
  | _ => '9'

/-- Decimal rendering of a number, the model of `${n}` in a template
literal. -/
def natToString (n : Nat) : String :=
  ⟨(toDecimal n).map decChar⟩

/-- Numeric value of a digit character, used by the `local-N` id parser. -/
def digitVal (c : Char) : Nat :=
  c.toNat - '0'.toNat

/-- Parses the numeric suffix of a `local-N` id, the model of
`/^local-(\d+)$/` followed by `Number(...)`. -/
def parseLocalId (id : String) : Option Nat :=
  let cs := id.data
  let prefixCs := "local-".data
  if cs.take 6 = prefixCs then
    let rest := cs.drop 6
    if rest ≠ [] ∧ rest.all (fun c => c.isDigit) then
      some (rest.foldl (fun acc c => acc * 10 + digitVal c) 0)
    else
      none
  else
    none

deriving instance DecidableEq for Except

/-! ### Path utilities (`src/renderer/fileSandbox/path.ts`) -/

/-- Path kinds accepted by normalisation, `PathKind` of `path.ts`. -/
inductive PathKind where
  | absoluteOrRelative
  | relativeOnly
deriving DecidableEq, Repr

/-- Errors raised by `path.ts` functions. -/
inductive PathError where
  | escapesRoot
  | expectedRelative
  | emptyName
  | invalidCharacters (name : String)
  | reservedName (name : String)
deriving DecidableEq, Repr

/-- The platform reserved device names, lower-cased (module table of
`path.ts`). -/
def reservedNames : List String :=
  ["con", "prn", "aux", "nul",
   "com1", "com2", "com3", "com4", "com5", "com6", "com7", "com8", "com9",
   "lpt1", "lpt2", "lpt3", "lpt4", "lpt5", "lpt6", "lpt7", "lpt8", "lpt9"]

/-- Lower-casing of a string, the model of `String.prototype.toLowerCase`
(character-wise, which agrees on the ASCII names involved). -/
def jsToLower (s : String) : String :=
  ⟨s.data.map Char.toLower⟩

/-- Whitespace trimming, the model of `String.prototype.trim`. -/
def jsTrim (s : String) : String :=
  ⟨((s.data.dropWhile Char.isWhitespace).reverse.dropWhile Char.isWhitespace).reverse⟩

/-- Split on `/`, with JavaScript `split('/')` semantics (empty segments are
kept; the empty string yields one empty segment). -/
def splitOnSlashCs : List Char → List (List Char)
  | [] => [[]]
  | c :: rest =>
    if c = '/' then [] :: splitOnSlashCs rest
    else
      match splitOnSlashCs rest with
      | seg :: segs => (c :: seg) :: segs
      | [] => [[c]]

/-- Split a string on `/`, JavaScript `split('/')`. -/
def splitSlash (s : String) : List String :=
  (splitOnSlashCs s.data).map (fun cs => ⟨cs⟩)

/-- Join with `/` separators, the model of `Array.prototype.join('/')`. -/
def joinWithSlash : List String → String
  | [] => ""
  | [s] => s
  | s :: rest => s ++ "/" ++ joinWithSlash rest

/-- Whether the string starts with the given character. -/
def startsWithChar (s : String) (c : Char) : Bool :=
  s.data.head? = some c

/-- Whether the string ends with the given character. -/
def endsWithChar (s : String) (c : Char) : Bool :=
  s.data.getLast? = some c

/-- Model of `isReservedName`: case-insensitive membership in the device-name
table. -/
def isReservedName (name : String) : Bool :=
  reservedNames.contains (jsToLower name)

/-- Model of the `invalidCharacters` regular expression test: any of
`\ / : * ? " < > |` occurring in the name. -/
def hasInvalidCharacters (name : String) : Bool :=
  name.data.any (fun c =>
    c = '\\' ∨ c = '/' ∨ c = ':' ∨ c = '*' ∨ c = '?' ∨ c = '"' ∨
    c = '<' ∨ c = '>' ∨ c = '|')

/-- Model of `splitPath`: split on `/` and drop empty segments. -/
def splitPath (input : String) : List String :=
  (splitSlash input).filter (fun part => part.length > 0)

/-- Replaces every backslash by a forward slash, the model of
`raw.replace(/\\/g, '/')`. -/
def replaceBackslashes (s : String) : String :=
  ⟨s.data.map (fun c => if c = '\\' then '/' else c)⟩

/-- Collapses runs of slashes to a single slash; the `prevSlash` flag records
whether the previous emitted character was a slash. -/
def collapseSlashesAux : List Char → Bool → List Char
  | [], _ => []
  | c :: rest, prevSlash =>
    if c = '/' then
      if prevSlash then collapseSlashesAux rest true
      else '/' :: collapseSlashesAux rest true
    else c :: collapseSlashesAux rest false

/-- Model of `raw.replace(/\/+/g, '/')`. -/
def collapseSlashes (s : String) : String :=
  ⟨collapseSlashesAux s.data false⟩

/-- Model of the `windowsDrivePattern` test `/^[A-Za-z]:/`. -/
def hasDrivePattern (s : String) : Bool :=
  match s.data with
  | c :: ':' :: _ => c.isAlpha
  | _ => false

/-- Model of `normaliseSegments`: collapse `.` and `..` segments against a
stack, failing when `..` would pop past the root. -/
def normaliseSegments : List String → List String → Except PathError (List String)
  | [], stack => .ok stack.reverse
  | seg :: rest, stack =>
    if seg = "" ∨ seg = "." then normaliseSegments rest stack
    else if seg = ".." then
      match stack with
      | [] => .error .escapesRoot
      | _ :: stack => normaliseSegments rest stack
    else normaliseSegments rest (seg :: stack)

/-- Model of `normaliseInternal`: slash canonicalisation, root detection and
segment normalisation. -/
def normaliseInternal (raw : String) (kind : PathKind) :
    Except PathError (Option String × List String) := do
  let trimmed := collapseSlashes (replaceBackslashes raw)
  let hasDrive := hasDrivePattern trimmed
  let isAbsolute := startsWithChar trimmed '/' ∨ hasDrive
  if kind = PathKind.relativeOnly ∧ isAbsolute then
    throw .expectedRelative
  let withoutTrailing :=
    if endsWithChar trimmed '/' ∧ trimmed.data.length > 1 then
      (⟨trimmed.data.take (trimmed.data.length - 1)⟩ : String)
    else trimmed
  let root : Option String :=
    if hasDrive then some ⟨withoutTrailing.data.take 2⟩
    else if startsWithChar withoutTrailing '/' then some "/"
    else none
  let rest : String :=
    match root with
    | some r =>
      if r = "/" then ⟨withoutTrailing.data.drop 1⟩
      else ⟨withoutTrailing.data.drop (r.data.length + 1)⟩
    | none => withoutTrailing
  let rawSegments := if rest.data.length = 0 then [] else splitSlash rest
  let segments ← normaliseSegments rawSegments []
  return (root, segments)

/-- Drops a single trailing slash, the model of `.replace(/\/$/, '')`. -/
def dropTrailingSlash (s : String) : String :=
  if endsWithChar s '/' then ⟨s.data.take (s.data.length - 1)⟩ else s

/-- Model of `normalisePath`. -/
def normalisePath (raw : String) (kind : PathKind := PathKind.absoluteOrRelative) :
    Except PathError String := do
  let (root, segments) ← normaliseInternal raw kind
  let body := joinWithSlash segments
  match root with
  | none => return (if body = "" then "." else body)
  | some r =>
    if r = "/" then
      let s := dropTrailingSlash ("/" ++ body)
      return (if s = "" then "/" else s)
    else
      let pfx := if endsWithChar r ':' then r else r ++ ":"
      return dropTrailingSlash (pfx ++ "/" ++ body)

/-- Model of `ensureValidName`: blank, invalid-character and reserved-name
checks, in source order. -/
def ensureValidName (name : String) : Except PathError Unit :=
  if name = "" ∨ (jsTrim name).data.length = 0 then .error .emptyName
  else if hasInvalidCharacters name then .error (.invalidCharacters name)
  else if isReservedName name then .error (.reservedName name)
  else .ok ()

/-- Result of `splitStemAndExtension`. -/
structure StemExtension where
  stem : String
  extension : String
deriving DecidableEq, Repr

/-- Left-to-right scan computing the index of the last `.`. -/
def lastDotIndexAux : List Char → Nat → Option Nat → Option Nat
  | [], _, acc => acc
  | c :: rest, i, acc => lastDotIndexAux rest (i + 1) (if c = '.' then some i else acc)

/-- Index of the last `.` in the name, or `none`; the model of
`name.lastIndexOf('.')` with `none` standing for `-1`. -/
def lastDotIndex (name : String) : Option Nat :=
  lastDotIndexAux name.data 0 none

/-- Model of `splitStemAndExtension`: last-dot split, except that a last dot
at position `0` (or no dot at all, `lastIndexOf ≤ 0`) yields an empty
extension. -/
def splitStemAndExtension (name : String) : StemExtension :=
  match lastDotIndex name with
  | none => { stem := name, extension := "" }
  | some 0 => { stem := name, extension := "" }
  | some i => { stem := ⟨name.data.take i⟩, extension := ⟨name.data.drop i⟩ }

/-! ### Tree model (`src/renderer/fileSandbox/tree.ts`)

The mutating operations return `Except (TreeError × SandboxTree) …`: the
error case carries the tree state as it stands at the moment the source
throws, so that partial mutation before a throw is observable. -/

/-- Errors thrown by `tree.ts` operations. -/
inductive TreeError where
  | nodeNotFound (id : String)
  | notAFolder (name : String)
  | nameAlreadyExists (name : String)
  | cannotMoveIntoDescendant
  | invalidName (e : PathError)
  | outOfFuel
deriving DecidableEq, Repr

/-- Model of `assertFolder`: look the node up and require `kind = folder`. -/
def assertFolder (tree : SandboxTree) (nodeId : String) : Except TreeError SandboxNode :=
  match mapGet? tree.nodes nodeId with
  | none => .error (.nodeNotFound nodeId)
  | some node =>
    if node.kind ≠ NodeKind.folder then .error (.notAFolder node.name)
    else .ok node

/-- Conflict policy on a duplicate sibling name, the `strategy` option of
`resolveNameConflict`. -/
inductive ConflictStrategy where
  | suffix
  | throwOnConflict
deriving DecidableEq, Repr

/-- Options record of `resolveNameConflict`. -/
structure ConflictOptions where
  excludeId : Option String := none
  kind : NodeKind
  allowMerge : Bool := false
  strategy : Option ConflictStrategy := none
deriving DecidableEq, Repr

/-- The `sibling.id !== options.excludeId` test (an absent `excludeId` never
matches a sibling id). -/
def notExcluded (excludeId : Option String) (sid : String) : Bool :=
  match excludeId with
  | some e => sid ≠ e
  | none => true

/-- The suffixed candidate name tried by the conflict-resolution loop:
`` `${stem}-${suffix}${extension}` ``. -/
def suffixCandidate (stem extension : String) (suffix : Nat) : String :=
  stem ++ "-" ++ natToString suffix ++ extension

/-- The `do … while` loop of `resolveNameConflict`: try `stem-1`, `stem-2`, …
until no sibling (other than the excluded node) carries the candidate name.
The loop always terminates in the source because the sibling list is finite;
the fuel argument makes that explicit (`siblings.length + 1` suffices). -/
def suffixSearch (siblings : List SandboxNode) (excludeId : Option String)
    (stem extension : String) : Nat → Nat → Option String
  | 0, _ => none
  | fuel + 1, suffix =>
    let candidate := suffixCandidate stem extension suffix
    if siblings.any (fun s => s.name = candidate ∧ notExcluded excludeId s.id) then
      suffixSearch siblings excludeId stem extension fuel (suffix + 1)
    else
      some candidate

/-- Model of `resolveNameConflict`. Returns the resolved name together with
the merge target when folder-into-folder merging applies. -/
def resolveNameConflict (tree : SandboxTree) (parentId : String) (desiredName : String)
    (options : ConflictOptions) : Except TreeError (String × Option SandboxNode) :=
  match assertFolder tree parentId with
  | .error e => .error e
  | .ok parent =>
    let siblings := parent.children.filterMap (fun childId => mapGet? tree.nodes childId)
    match siblings.find? (fun s => s.name = desiredName ∧ notExcluded options.excludeId s.id) with
    | none => .ok (desiredName, none)
    | some conflict =>
      if options.allowMerge ∧ conflict.kind = NodeKind.folder ∧ options.kind = NodeKind.folder then
        .ok (conflict.name, some conflict)
      else if options.strategy = some ConflictStrategy.throwOnConflict then
        .error (.nameAlreadyExists desiredName)
      else
        let se := splitStemAndExtension desiredName
        match suffixSearch siblings options.excludeId se.stem se.extension
            (siblings.length + 1) 1 with
        | some candidate => .ok (candidate, none)
        | none => .error .outOfFuel

/-- Model of `generateLocalId`: mint `local-N` and advance the counter. -/
def generateLocalId (tree : SandboxTree) : String × SandboxTree :=
  ("local-" ++ natToString tree.nextLocalId,
   { tree with nextLocalId := tree.nextLocalId + 1 })

/-- The `while (cursor)` walk of `pathOf`: prepend ancestor names until the
cursor is null/empty or a parent is missing (`if (!parent) break`). -/
def pathOfAux (nodes : List (String × SandboxNode)) :
    Nat → Option String → List String → Option (List String)
  | _, none, parts => some parts
  | fuel, some c, parts =>
    if c = "" then some parts
    else
      match mapGet? nodes c with
      | none => some parts
      | some parent =>
        match fuel with
        | 0 => none
        | fuel + 1 => pathOfAux nodes fuel parent.parentId (parent.name :: parts)

/-- Model of `pathOf` on a bare node map. -/
def pathOfNodes (nodes : List (String × SandboxNode)) (id : String) :
    Except TreeError String :=
  match mapGet? nodes id with
  | none => .error (.nodeNotFound id)
  | some node =>
    match pathOfAux nodes nodes.length node.parentId [node.name] with
    | none => .error .outOfFuel
    | some parts => .ok (joinWithSlash parts)

/-- Model of `pathOf`: root-to-node name join. -/
def pathOf (tree : SandboxTree) (id : String) : Except TreeError String :=
  pathOfNodes tree.nodes id

/-- The ancestor walk of `isDescendant`: follow parent links from `cursor`,
returning whether `anc` is met; `none` models divergence on a cyclic chain. -/
def ancestorWalk (nodes : List (String × SandboxNode)) (anc : String) :
    Nat → Option String → Option Bool
  | _, none => some false
  | fuel, some c =>
    if c = "" then some false
    else if c = anc then some true
    else
      match fuel with
      | 0 => none
      | fuel + 1 => ancestorWalk nodes anc fuel ((mapGet? nodes c).bind (fun n => n.parentId))

/-- Model of `isDescendant tree id potentialAncestorId`: walks the ancestors
of `id` looking for `potentialAncestorId`. -/
def isDescendant (tree : SandboxTree) (id : String) (potentialAncestorId : String) :
    Option Bool :=
  ancestorWalk tree.nodes potentialAncestorId (tree.nodes.length + 1)
    ((mapGet? tree.nodes id).bind (fun n => n.parentId))

/-- Model of `reparent`: detach from the current parent, set `parentId`, and
append to the new parent's child list. Each step re-reads the map so that the
source's object aliasing (all mutations act on the live map entries) is
reproduced. -/
def reparent (tree : SandboxTree) (id : String) (newParentId : String) :
    Except TreeError SandboxTree :=
  match mapGet? tree.nodes id with
  | none => .error (.nodeNotFound id)
  | some node =>
    let t1 :=
      match node.parentId with
      | some pid =>
        if pid ≠ "" then
          match mapGet? tree.nodes pid with
          | some parent =>
            let parent1 := { parent with children := parent.children.filter (fun childId => childId ≠ id) }
            { tree with nodes := mapSet tree.nodes pid parent1 }
          | none => tree
        else tree
      | none => tree
    let t2 :=
      match mapGet? t1.nodes id with
      | some node1 => { t1 with nodes := mapSet t1.nodes id ({ node1 with parentId := some newParentId }) }
      | none => t1
    let t3 :=
      match mapGet? t2.nodes newParentId with
      | some np => { t2 with nodes := mapSet t2.nodes newParentId ({ np with children := np.children ++ [id] }) }
      | none => t2
    .ok t3

/-- Payload record of `createNode`. -/
structure CreatePayload where
  name : String
  kind : NodeKind
  id : Option String := none
deriving DecidableEq, Repr

/-- Model of `createNode`. -/
def createNode (tree : SandboxTree) (parentId : String) (payload : CreatePayload) :
    Except (TreeError × SandboxTree) (SandboxTree × SandboxNode) :=
  match assertFolder tree parentId with
  | .error e => .error (e, tree)
  | .ok parent =>
    match ensureValidName payload.name with
    | .error e => .error (.invalidName e, tree)
    | .ok _ =>
      match resolveNameConflict tree parentId payload.name
          { kind := payload.kind,
            strategy := some (if payload.kind = NodeKind.folder then ConflictStrategy.suffix
                              else ConflictStrategy.throwOnConflict) } with
      | .error e => .error (e, tree)
      | .ok (name, _) =>
        let idAndTree :=
          match payload.id with
          | some pid => (pid, tree)
          | none => generateLocalId tree
        let nodeId := idAndTree.1
        let t1 := idAndTree.2
        let t2 :=
          match payload.id with
          | some pid =>
            if pid ≠ "" then
              match parseLocalId pid with
              | some numeric =>
                if numeric ≥ t1.nextLocalId then { t1 with nextLocalId := numeric + 1 } else t1
              | none => t1
            else t1
          | none => t1
        let node : SandboxNode :=
          { id := nodeId, name := name, kind := payload.kind, parentId := some parent.id,
            children := [], fromSnapshot := false, originalName := none, originalParentId := none }
        let t3 := { t2 with nodes := mapSet t2.nodes node.id node }
        let t4 :=
          if node.id = parent.id then t3
          else
            let parent1 := { parent with children := parent.children ++ [node.id] }
            { t3 with nodes := mapSet t3.nodes parent.id parent1 }
        .ok (t4, node)

/-- Model of `renameNode`. -/
def renameNode (tree : SandboxTree) (id : String) (desiredName : String) :
    Except (TreeError × SandboxTree) (SandboxTree × SandboxNode) :=
  match mapGet? tree.nodes id with
  | none => .error (.nodeNotFound id, tree)
  | some node =>
    match ensureValidName desiredName with
    | .error e => .error (.invalidName e, tree)
    | .ok _ =>
      match node.parentId with
      | some parentId =>
        if parentId = "" then
          let node1 := { node with name := desiredName }
          .ok ({ tree with nodes := mapSet tree.nodes id node1 }, node1)
        else
          match resolveNameConflict tree parentId desiredName
              { kind := node.kind, excludeId := some node.id } with
          | .error e => .error (e, tree)
          | .ok (name, _) =>
            let node1 := { node with name := name }
            .ok ({ tree with nodes := mapSet tree.nodes id node1 }, node1)
      | none =>
        let node1 := { node with name := desiredName }
        .ok ({ tree with nodes := mapSet tree.nodes id node1 }, node1)

/-- The recursive child collection of `deleteNode` (`collectDescendants`);
fuel exhaustion truncates, modelling the stack overflow a cyclic child graph
would cause in the source (never reached on the acyclic trees the theorems
use). -/
def collectDescendants (nodes : List (String × SandboxNode)) :
    Nat → String → List String
  | 0, _ => []
  | fuel + 1, id =>
    match mapGet? nodes id with
    | none => []
    | some node =>
      if node.kind ≠ NodeKind.folder then []
      else node.children.flatMap (fun childId => childId :: collectDescendants nodes fuel childId)

/-- Model of `deleteNode`: detach from the parent, then remove the node and
its collected descendants from the node map. -/
def deleteNode (tree : SandboxTree) (id : String) :
    Except (TreeError × SandboxTree) SandboxTree :=
  match mapGet? tree.nodes id with
  | none => .error (.nodeNotFound id, tree)
  | some node =>
    let t1 :=
      match node.parentId with
      | some pid =>
        if pid ≠ "" then
          match mapGet? tree.nodes pid with
          | some parent =>
            let parent1 := { parent with children := parent.children.filter (fun childId => childId ≠ id) }
            { tree with nodes := mapSet tree.nodes pid parent1 }
          | none => tree
        else tree
      | none => tree
    let descendants := collectDescendants t1.nodes t1.nodes.length id
    let t2 := descendants.foldl (fun t childId => { t with nodes := mapDelete t.nodes childId }) t1
    .ok { t2 with nodes := mapDelete t2.nodes id }

/-- Sequential `forEach` of `moveNode`'s merge branch: reparent every child
of the moved node into the merge target, threading the tree state; an error
carries the state reached so far (the source throws mid-loop). -/
def reparentAll (tree : SandboxTree) (childIds : List String) (targetId : String) :
    Except (TreeError × SandboxTree) SandboxTree :=
  match childIds with
  | [] => .ok tree
  | c :: rest =>
    match reparent tree c targetId with
    | .error e => .error (e, tree)
    | .ok t1 => reparentAll t1 rest targetId

/-- Model of `moveNode`. -/
def moveNode (tree : SandboxTree) (id : String) (targetParentId : String) :
    Except (TreeError × SandboxTree) (SandboxTree × SandboxNode) :=
  match mapGet? tree.nodes id with
  | none => .error (.nodeNotFound id, tree)
  | some node =>
    if node.parentId = some targetParentId then .ok (tree, node)
    else
      match mapGet? tree.nodes targetParentId with
      | none => .error (.nodeNotFound targetParentId, tree)
      | some _ =>
        match isDescendant tree targetParentId id with
        | none => .error (.outOfFuel, tree)
        | some true => .error (.cannotMoveIntoDescendant, tree)
        | some false =>
          match assertFolder tree targetParentId with
          | .error e => .error (e, tree)
          | .ok targetParent =>
            match resolveNameConflict tree targetParentId node.name
                { kind := node.kind, excludeId := some node.id, allowMerge := true } with
            | .error e => .error (e, tree)
            | .ok (name, mergeTarget?) =>
              match mergeTarget? with
              | some mergeTarget =>
                if node.kind = NodeKind.folder then
                  match reparentAll tree node.children mergeTarget.id with
                  | .error e => .error e
                  | .ok t1 =>
                    match deleteNode t1 node.id with
                    | .error e => .error e
                    | .ok t2 =>
                      .ok (t2, (mapGet? t2.nodes mergeTarget.id).getD mergeTarget)
                else
                  moveNodePlain tree id name targetParent.id
              | none => moveNodePlain tree id name targetParent.id
where
  /-- The non-merge tail of `moveNode`: `node.name = name` followed by
  `reparent`. -/
  moveNodePlain (tree : SandboxTree) (id : String) (name : String) (targetId : String) :
      Except (TreeError × SandboxTree) (SandboxTree × SandboxNode) :=
    let t1 :=
      match mapGet? tree.nodes id with
      | some node1 => { tree with nodes := mapSet tree.nodes id ({ node1 with name := name }) }
      | none => tree
    match reparent t1 id targetId with
    | .error e => .error (e, t1)
    | .ok t2 =>
      let fallback : SandboxNode :=
        { id := id, name := name, kind := NodeKind.file, parentId := none, children := [],
          fromSnapshot := false, originalName := none, originalParentId := none }
      .ok (t2, (mapGet? t2.nodes id).getD fallback)

/-- Projection: id of a serialized fragment node. -/
def SerializedSandboxNode.sid : SerializedSandboxNode → String
  | .mk id _ _ _ _ _ _ _ => id

/-- Projection: children of a serialized fragment node. -/
def SerializedSandboxNode.childrenOf : SerializedSandboxNode → List SerializedSandboxNode
  | .mk _ _ _ _ _ _ _ children => children

/-- Model of `serialiseSubtree`: recursively package the subtree rooted at
`id`. The fuel argument bounds the recursion depth (the source recursion is
unbounded and would overflow the stack on a cyclic child graph); any fuel at
least the subtree depth gives the source behaviour. -/
def serialiseSubtree (tree : SandboxTree) (id : String) :
    Nat → Except TreeError SerializedSandboxNode
  | 0 =>
    match mapGet? tree.nodes id with
    | none => .error (.nodeNotFound id)
    | some _ => .error .outOfFuel
  | fuel + 1 =>
    match mapGet? tree.nodes id with
    | none => .error (.nodeNotFound id)
    | some node => do
      let children ← node.children.mapM (fun childId => serialiseSubtree tree childId fuel)
      return .mk node.id node.name node.kind node.parentId node.fromSnapshot
        node.originalName node.originalParentId children

/-- Model of `restoreSubtree`: re-insert a serialized fragment under
`parentId` (the fragment root's own recorded parent is replaced by the
supplied one), re-registering `local-N` counters, and return the restored
root node. The fuel argument bounds the recursion depth; `none` models the
stack overflow an over-deep fragment would cause, and never occurs when the
fuel is at least the fragment depth. With duplicate ids inside the fragment
the source's object aliasing is not reproduced exactly; on fragments with
distinct ids (the only ones the theorems quantify over) the model follows
the source step for step. `restoreAttach` is the parent/root attachment step
of `restoreSubtree`. -/
def restoreAttach (tree : SandboxTree) (id : String) (parentId : Option String) : SandboxTree :=
  match parentId with
  | some pid =>
    if pid ≠ "" then
      match mapGet? tree.nodes pid with
      | some parent =>
        let parent1 := { parent with children := parent.children ++ [id] }
        { tree with nodes := mapSet tree.nodes pid parent1 }
      | none => tree
    else { tree with rootId := id }
  | none => { tree with rootId := id }

/-- The `local-N` counter re-registration step of `restoreSubtree`. -/
def restoreCounter (tree : SandboxTree) (id : String) (fromSnapshot : Bool) : SandboxTree :=
  if ¬ fromSnapshot then
    match parseLocalId id with
    | some numeric =>
      if numeric ≥ tree.nextLocalId then { tree with nextLocalId := numeric + 1 } else tree
    | none => tree
  else tree

def restoreSubtree :
    Nat → SandboxTree → Option String → SerializedSandboxNode →
    Option (SandboxTree × SandboxNode)
  | 0, _, _, _ => none
  | fuel + 1, tree, parentId, .mk id name kind _ fromSnapshot originalName originalParentId children =>
    let node0 : SandboxNode :=
      { id := id, name := name, kind := kind, parentId := parentId, children := [],
        fromSnapshot := fromSnapshot, originalName := originalName,
        originalParentId := originalParentId }
    let t1 := { tree with nodes := mapSet tree.nodes id node0 }
    let t3 := restoreCounter (restoreAttach t1 id parentId) id fromSnapshot
    match children.foldlM
        (fun t c => Option.map Prod.fst (restoreSubtree fuel t (some id) c)) t3 with
    | none => none
    | some t4 =>
      let node1 := { node0 with children := children.map SerializedSandboxNode.sid }
      some ({ t4 with nodes := mapSet t4.nodes id node1 }, node1)

/-! ### Snapshot loading (`buildSandboxTree` of `tree.ts`) -/

/-- Snapshot node record, `SnapshotNode` of `src/types/snapshot.ts` (an
absent `children` array is the empty list). -/
inductive SnapshotNode where
  | mk (id : String) (name : String) (kind : NodeKind) (children : List SnapshotNode)

/-- Projection: id of a snapshot node. -/
def SnapshotNode.sid : SnapshotNode → String
  | .mk id _ _ _ => id

/-- Snapshot record, `Snapshot` of `src/types/snapshot.ts` (only the fields
`buildSandboxTree` reads). -/
structure Snapshot where
  rootPath : String
  tree : SnapshotNode

/-- Model of `addNode`: insert a node recording its original name/parent and
register it in the parent's child list. -/
def addNode (tree : SandboxTree) (id name : String) (kind : NodeKind)
    (parentId : Option String) : SandboxTree × SandboxNode :=
  let node : SandboxNode :=
    { id := id, name := name, kind := kind, parentId := parentId, children := [],
      fromSnapshot := true, originalName := some name, originalParentId := some parentId }
  let t1 := { tree with nodes := mapSet tree.nodes id node }
  let t2 :=
    match parentId with
    | some pid =>
      if pid ≠ "" then
        match mapGet? t1.nodes pid with
        | some parent =>
          let parent1 := { parent with children := parent.children ++ [id] }
          { t1 with nodes := mapSet t1.nodes pid parent1 }
        | none => t1
      else t1
    | none => t1
  let original : OriginalNode := { name := name, parentId := parentId, kind := kind }
  let t3 := { t2 with originalNodes := mapSet t2.originalNodes id original }
  (t3, node)

/-- The recursive `walk` of `buildSandboxTree`: add the node, record its
as-loaded path, then walk the children. Fuel bounds the recursion depth as
for `restoreSubtree`. -/
def buildWalk :
    Nat → SandboxTree → Option String → List String → SnapshotNode → Option SandboxTree
  | 0, _, _, _, _ => none
  | fuel + 1, tree, parentId, pathSegments, .mk id name kind children =>
    let t1 := (addNode tree id name kind parentId).1
    let path := joinWithSlash (pathSegments ++ [name])
    let t2 := { t1 with originalPaths := mapSet t1.originalPaths id path }
    children.foldlM
      (fun t c => buildWalk fuel t (some id) (pathSegments ++ [name]) c) t2

/-- Model of `buildSandboxTree` (fuel bounds the walk depth). -/
def buildSandboxTree (snapshot : Snapshot) (fuel : Nat) : Option SandboxTree :=
  let tree : SandboxTree :=
    { nodes := [], rootId := snapshot.tree.sid, snapshotRootPath := snapshot.rootPath,
      originalPaths := [], originalNodes := [], nextLocalId := 1, diffSequence := 0 }
  buildWalk fuel tree none [] snapshot.tree

/-- The empty tree used as an impossible fallback when extracting from
`Option SandboxTree` values that are provably `some`. -/
def emptyTree : SandboxTree :=
  { nodes := [], rootId := "", snapshotRootPath := "", originalPaths := [],
    originalNodes := [], nextLocalId := 1, diffSequence := 0 }

/-- The fixture snapshot used by `src/__tests__/fileSandbox.test.ts`. -/
def fixtureSnapshot : Snapshot :=
  { rootPath := "C:/Projects",
    tree := .mk "root" "Projects" .folder
      [ .mk "n-1" "docs" .folder [ .mk "n-2" "readme.md" .file [] ],
        .mk "n-3" "src" .folder
          [ .mk "n-4" "index.ts" .file [], .mk "n-5" "App.tsx" .file [] ],
        .mk "n-6" "package.json" .file [] ] }

/-- The fixture tree as loaded. -/
def fixtureTree : SandboxTree :=
  (buildSandboxTree fixtureSnapshot 8).getD emptyTree

/-! ### Diff generator (`src/renderer/fileSandbox/diff.ts`) -/

/-- The `Create` diff operation, `CreateOp` of `src/types/diff.ts`. -/
structure CreateOp where
  parentPath : String
  name : String
  kind : NodeKind
deriving DecidableEq, Repr

/-- The `Move` diff operation, `MoveOp` of `src/types/diff.ts`. -/
structure MoveOp where
  id : String
  kind : NodeKind
  fromPath : String
  toParentPath : String
deriving DecidableEq, Repr

/-- The `Rename` diff operation, `RenameOp` of `src/types/diff.ts`. -/
structure RenameOp where
  id : String
  kind : NodeKind
  fromPath : String
  toPath : String
  fromName : String
  toName : String
deriving DecidableEq, Repr

/-- The `Delete` diff operation, `DeleteOp` of `src/types/diff.ts` (an absent
`recursive` flag is `none`). -/
structure DeleteOp where
  id : String
  kind : NodeKind
  atPath : String
  recursive : Option Bool
deriving DecidableEq, Repr

/-- The tagged union `DiffOp` of `src/types/diff.ts`. -/
inductive Op where
  | create (op : CreateOp)
  | move (op : MoveOp)
  | rename (op : RenameOp)
  | delete (op : DeleteOp)
deriving DecidableEq, Repr

/-- Diff metadata (`meta` of a `Diff`). -/
structure DiffMeta where
  createdAtIso : String
  uid : String
deriving DecidableEq, Repr

/-- A generated diff, `Diff` of `src/types/diff.ts`. -/
structure Diff where
  baseRoot : String
  ops : List Op
  meta : DiffMeta
deriving DecidableEq, Repr

/-- Model of `pathDepth`: `0` for the empty string, otherwise the number of
`split('/')` segments. -/
def pathDepth (p : String) : Nat :=
  if p = "" then 0 else (splitSlash p).length

/-- The first `tree.nodes.forEach` pass of `generateDiff`: collect `Create`,
`Move` and `Rename` operations in map iteration order. -/
def collectOps (nodes : List (String × SandboxNode))
    (origNodes : List (String × OriginalNode)) (origPaths : List (String × String)) :
    Except TreeError (List CreateOp × List MoveOp × List RenameOp) :=
  nodes.foldlM
    (fun acc entry => do
      let node := entry.2
      if ¬ node.fromSnapshot then
        let parentPath ←
          match node.parentId with
          | some p => if p ≠ "" then pathOfNodes nodes p else pure ""
          | none => pure ""
        let op : CreateOp := { parentPath := parentPath, name := node.name, kind := node.kind }
        return (acc.1 ++ [op], acc.2.1, acc.2.2)
      else
        match mapGet? origNodes node.id with
        | none => return acc
        | some original => do
          let moves ←
            if original.parentId ≠ node.parentId then do
              let toParentPath ←
                match node.parentId with
                | some p => if p ≠ "" then pathOfNodes nodes p else pure ""
                | none => pure ""
              let op : MoveOp :=
                { id := node.id, kind := node.kind,
                  fromPath := (mapGet? origPaths node.id).getD original.name,
                  toParentPath := toParentPath }
              pure (acc.2.1 ++ [op])
            else pure acc.2.1
          let renames ←
            if original.name ≠ node.name then do
              let toPath ← pathOfNodes nodes node.id
              let op : RenameOp :=
                { id := node.id, kind := node.kind,
                  fromPath := (mapGet? origPaths node.id).getD original.name,
                  toPath := toPath, fromName := original.name, toName := node.name }
              pure (acc.2.2 ++ [op])
            else pure acc.2.2
          return (acc.1, moves, renames))
    ([], [], [])

/-- The set of ids present in `originalNodes` but absent from `nodes`, in
`originalNodes` iteration order (the `deletedIds` set of `generateDiff`). -/
def deletedIdsOf (nodes : List (String × SandboxNode))
    (origNodes : List (String × OriginalNode)) : List String :=
  (origNodes.filter (fun entry => ¬ mapHas nodes entry.1)).map (fun entry => entry.1)

/-- The body of the delete pass for one deleted id: `none` when the entry is
missing or the (truthy) original parent is itself deleted, else the emitted
`Delete` op. -/
def deleteOpFor (origNodes : List (String × OriginalNode))
    (origPaths : List (String × String)) (deletedIds : List String) (id : String) :
    Option DeleteOp :=
  match mapGet? origNodes id with
  | none => none
  | some original =>
    let skip : Bool :=
      match original.parentId with
      | some p => decide (p ≠ "") && deletedIds.contains p
      | none => false
    if skip then none
    else
      some { id := id, kind := original.kind,
             atPath := (mapGet? origPaths id).getD original.name,
             recursive := if original.kind = NodeKind.folder then some true else none }

/-- The delete pass of `generateDiff`: one `Delete` per deleted id whose
original parent is not itself deleted. -/
def collectDeletes (nodes : List (String × SandboxNode))
    (origNodes : List (String × OriginalNode)) (origPaths : List (String × String)) :
    List DeleteOp :=
  let deletedIds := deletedIdsOf nodes origNodes
  deletedIds.foldl
    (fun acc id =>
      match deleteOpFor origNodes origPaths deletedIds id with
      | none => acc
      | some op => acc ++ [op])
    []

/-- Sort key order for `Create` ops: ascending parent-path depth, then name
(the comparator of `createOps.sort`; `localeCompare` is modelled as the
lexicographic string order). -/
def createLe (a b : CreateOp) : Prop :=
  pathDepth a.parentPath < pathDepth b.parentPath ∨
    (pathDepth a.parentPath = pathDepth b.parentPath ∧ a.name ≤ b.name)

/-- Sort key order for `Move` ops: ascending destination-parent depth, then
id. -/
def moveLe (a b : MoveOp) : Prop :=
  pathDepth a.toParentPath < pathDepth b.toParentPath ∨
    (pathDepth a.toParentPath = pathDepth b.toParentPath ∧ a.id ≤ b.id)

/-- Sort key order for `Rename` ops: destination path. -/
def renameLe (a b : RenameOp) : Prop :=
  a.toPath ≤ b.toPath

/-- Sort key order for `Delete` ops: descending original-path depth, then
id. -/
def deleteLe (a b : DeleteOp) : Prop :=
  pathDepth b.atPath < pathDepth a.atPath ∨
    (pathDepth a.atPath = pathDepth b.atPath ∧ a.id ≤ b.id)

instance : DecidableRel createLe := fun a b => by
  unfold createLe; infer_instance

instance : DecidableRel moveLe := fun a b => by
  unfold moveLe; infer_instance

instance : DecidableRel renameLe := fun a b => by
  unfold renameLe; infer_instance

instance : DecidableRel deleteLe := fun a b => by
  unfold deleteLe; infer_instance

/-- The ops list computed by `generateDiff` (everything except the `Diff`
envelope and the sequence-counter bump): collect, sort each class with the
source comparators (`Array.prototype.sort` is stable, as is insertion sort),
and concatenate `creates ++ moves ++ renames ++ deletes`. -/
def generateOpsCore (nodes : List (String × SandboxNode))
    (origNodes : List (String × OriginalNode)) (origPaths : List (String × String)) :
    Except TreeError (List Op) :=
  match collectOps nodes origNodes origPaths with
  | .error e => .error e
  | .ok (createOps, moveOps, renameOps) =>
    let deleteOps := collectDeletes nodes origNodes origPaths
    .ok ((List.insertionSort createLe createOps).map Op.create ++
      (List.insertionSort moveLe moveOps).map Op.move ++
      (List.insertionSort renameLe renameOps).map Op.rename ++
      (List.insertionSort deleteLe deleteOps).map Op.delete)

/-- Model of `generateDiff`. The wall-clock timestamp is an input
(`nowIso`); the returned tree carries the bumped `diffSequence`. -/
def generateDiff (tree : SandboxTree) (nowIso : String) :
    Except TreeError (Diff × SandboxTree) :=
  match generateOpsCore tree.nodes tree.originalNodes tree.originalPaths with
  | .error e => .error e
  | .ok ops =>
    let diff : Diff :=
      { baseRoot := tree.snapshotRootPath, ops := ops,
        meta := { createdAtIso := nowIso,
                  uid := "sandbox-diff-" ++ natToString tree.diffSequence } }
    .ok (diff, { tree with diffSequence := tree.diffSequence + 1 })

/-- Resulting tree of a mutation that returns a node, error or not. -/
def afterMutation (r : Except (TreeError × SandboxTree) (SandboxTree × SandboxNode)) :
    SandboxTree :=
  match r with
  | .ok (t, _) => t
  | .error (_, t) => t

/-- Resulting tree of a delete, error or not. -/
def afterDelete (r : Except (TreeError × SandboxTree) SandboxTree) : SandboxTree :=
  match r with
  | .ok t => t
  | .error (_, t) => t

/-! ### Diff executor (`src/main/diffExecutor.ts`)

The filesystem is an oracle: every access is recorded as an `FsEvent`, and
the environment answers queries as a function of the event history so far
(which subsumes any stateful filesystem). Node `path` helpers are modelled
as plain slash-joining on the already-clean paths the executor constructs. -/

/-- Result of a lock probe (`checkFileLock`). -/
inductive LockState where
  | ok
  | locked
  | missing
deriving DecidableEq, Repr

/-- Decision of the locked-file handler (`onLockedFile`). -/
inductive LockDecision where
  | retry
  | skip
  | abort
deriving DecidableEq, Repr

/-- Status of an applied operation, `DiffApplyOperationStatus`. -/
inductive OpStatus where
  | applied
  | skipped
  | failed
  | aborted
deriving DecidableEq, Repr

/-- Dry-run precondition, `DiffDryRunPrecondition` (the `error` variant
exists in the type but is never assigned by `buildDryRunReport`). -/
inductive Precondition where
  | ok
  | missingSource
  | targetExists
  | error
deriving DecidableEq, Repr

/-- Operation type tag (`DiffOp['type']`). -/
inductive OpType where
  | create
  | move
  | rename
  | delete
deriving DecidableEq, Repr

/-- Type tag of an op. -/
def Op.typeTag : Op → OpType
  | .create _ => .create
  | .move _ => .move
  | .rename _ => .rename
  | .delete _ => .delete

/-- Kind of an op. -/
def Op.kindOf : Op → NodeKind
  | .create c => c.kind
  | .move m => m.kind
  | .rename r => r.kind
  | .delete d => d.kind

/-- One recorded filesystem (or handler) access. -/
inductive FsEvent where
  | queryExists (p : String)
  | lockProbe (p : String)
  | askLocked (p : String)
  | mkdirRecursive (p : String)
  | writeFile (p : String)
  | renameFs (src : String) (dst : String)
  | removeFs (p : String) (recursive : Bool)
  | makeSnapshot (root : String)
deriving DecidableEq, Repr

/-- Per-operation dry-run report entry, `DiffDryRunOperationReport`. -/
structure DryRunOpReport where
  op : Op
  targetPath : String
  description : String
  precondition : Precondition
  message : Option String
deriving DecidableEq, Repr

/-- Dry-run report, `DiffDryRunReport`. -/
structure DryRunReport where
  baseRoot : String
  rootName : String
  operations : List DryRunOpReport
  issues : List String
deriving DecidableEq, Repr

/-- Per-operation apply result, `DiffApplyOperationResult`. -/
structure OpResult where
  type : OpType
  kind : NodeKind
  status : OpStatus
  targetPath : String
  message : Option String
deriving DecidableEq, Repr

/-- The execution environment of `applyDiff`: oracles for `fs.access`, the
lock probe, the locked-file handler, the outcome of each mutating filesystem
call (`none` is success, `some msg` a thrown error), the optional
confirmation gate, whether an `onLockedFile` handler was supplied, and fuel
for the retry loop (which the source lets run unboundedly; `none` from the
model is the divergence case). -/
structure FsEnv where
  fsExists : List FsEvent → String → Bool
  fsLock : List FsEvent → String → LockState
  lockedChoice : List FsEvent → String → LockDecision
  fsAct : List FsEvent → FsEvent → Option String
  confirmGate : Option (DryRunReport → Bool)
  hasLockedHandler : Bool
  retryFuel : Nat

/-- Model of Node `path.join` restricted to the executor's use: join the
non-empty parts with single slashes. -/
def nodeJoin (parts : List String) : String :=
  joinWithSlash (parts.filter (fun s => s ≠ ""))

/-- Model of Node `path.basename`: last non-empty `/`-segment. -/
def nodeBasename (p : String) : String :=
  (splitPath p).getLastD ""

/-- Model of Node `path.dirname`: everything before the last slash (`.` when
there is no slash, `/` when the only slash is leading). -/
def nodeDirname (p : String) : String :=
  match p.data.reverse.dropWhile (fun c => c ≠ '/') with
  | [] => "."
  | ['/'] => "/"
  | _ :: rest => ⟨rest.reverse⟩

/-- Model of `inferRootName`: first op carrying a usable leading segment,
else the basename of `baseRoot` (the `path.parse` fallback chain of the
source is collapsed to `baseRoot` itself, its value on every degenerate
input the executor can meet). -/
def inferRootName (diff : Diff) : String :=
  let fromOp := diff.ops.findSome? (fun op =>
    match op with
    | .create c => if c.parentPath ≠ "" then some ((splitSlash c.parentPath).headD "") else none
    | .rename r =>
      let segment := (splitSlash r.fromPath).headD ""
      if segment ≠ "" then some segment else none
    | .move m =>
      let segment := (splitSlash m.fromPath).headD ""
      if segment ≠ "" then some segment else none
    | .delete d =>
      if d.atPath ≠ "" then
        let segment := (splitSlash d.atPath).headD ""
        if segment ≠ "" then some segment else none
      else none)
  match fromOp with
  | some name => name
  | none =>
    let basename := nodeBasename diff.baseRoot
    if basename ≠ "" ∧ basename ≠ "/" then basename else diff.baseRoot

/-- The resolver's `normaliseSegments`: clean a tree path and strip a leading
segment equal to the root name. -/
def resolverSegments (rootName : String) (treePath : String) : List String :=
  if treePath = "" then []
  else
    let segments := (splitSlash (replaceBackslashes treePath)).filter (fun s => s ≠ "")
    match segments with
    | s :: rest => if s = rootName then rest else segments
    | [] => []

/-- The resolver's `toAbsolute`: map a tree path onto `baseRoot`. -/
def toAbsolute (baseRoot rootName : String) (treePath : String) : String :=
  nodeJoin (baseRoot :: resolverSegments rootName treePath)

/-- The resolver's `toParentAbsolute` (identical body in the source). -/
def toParentAbsolute (baseRoot rootName : String) (treePath : String) : String :=
  nodeJoin (baseRoot :: resolverSegments rootName treePath)

/-- Rendering of a node kind in descriptions. -/
def kindStr : NodeKind → String
  | .file => "file"
  | .folder => "folder"

/-- Model of `describeOp`. -/
def describeOp (baseRoot rootName : String) (op : Op) : String :=
  match op with
  | .create c =>
    "Create " ++ kindStr c.kind ++ " " ++
      nodeJoin [toParentAbsolute baseRoot rootName c.parentPath, c.name]
  | .move m =>
    "Move " ++ kindStr m.kind ++ " from " ++ toAbsolute baseRoot rootName m.fromPath ++
      " to " ++ toParentAbsolute baseRoot rootName m.toParentPath
  | .rename r =>
    "Rename " ++ kindStr r.kind ++ " from " ++ toAbsolute baseRoot rootName r.fromPath ++
      " to " ++ toAbsolute baseRoot rootName r.toPath
  | .delete d =>
    "Delete " ++ kindStr d.kind ++ " at " ++ toAbsolute baseRoot rootName d.atPath

/-- Model of `resolveRenameSourcePath`: prefer the recorded `fromPath` when
it exists on disk, else look for the original name inside the destination
directory. Returns the resolved path and the emitted access events. -/
def resolveRenameSourcePath (env : FsEnv) (trace : List FsEvent)
    (baseRoot rootName : String) (op : RenameOp) : String × List FsEvent :=
  let originalPath := toAbsolute baseRoot rootName op.fromPath
  let events := [FsEvent.queryExists originalPath]
  if env.fsExists trace originalPath then (originalPath, events)
  else
    let targetDirectory := nodeDirname (toAbsolute baseRoot rootName op.toPath)
    (nodeJoin [targetDirectory, op.fromName], events)

/-- Model of `resolveMoveTargetPath`. -/
def resolveMoveTargetPath (baseRoot rootName : String) (op : MoveOp) : String :=
  let fromAbsolute := toAbsolute baseRoot rootName op.fromPath
  let parentTarget := toParentAbsolute baseRoot rootName op.toParentPath
  nodeJoin [parentTarget, nodeBasename fromAbsolute]

/-- Rendering of a non-`ok` precondition in the issue list. -/
def precondStr : Precondition → String
  | .ok => "ok"
  | .missingSource => "missing-source"
  | .targetExists => "target-exists"
  | .error => "error"

/-- Dry-run evaluation of a single op: precondition, target path and emitted
filesystem queries. -/
def dryRunOp (env : FsEnv) (baseRoot rootName : String) (trace : List FsEvent)
    (op : Op) : DryRunOpReport × List FsEvent :=
  let description := describeOp baseRoot rootName op
  match op with
  | .create c =>
    let targetPath := nodeJoin [toParentAbsolute baseRoot rootName c.parentPath, c.name]
    let events := [FsEvent.queryExists targetPath]
    if env.fsExists trace targetPath then
      ({ op := op, targetPath := targetPath, description := description,
         precondition := .targetExists, message := some "Target already exists" }, events)
    else
      ({ op := op, targetPath := targetPath, description := description,
         precondition := .ok, message := none }, events)
  | .move m =>
    let sourcePath := toAbsolute baseRoot rootName m.fromPath
    let targetPath := resolveMoveTargetPath baseRoot rootName m
    let ev1 := [FsEvent.queryExists sourcePath]
    if ¬ env.fsExists trace sourcePath then
      ({ op := op, targetPath := targetPath, description := description,
         precondition := .missingSource, message := some "Source path is missing" }, ev1)
    else
      let ev2 := ev1 ++ [FsEvent.queryExists targetPath]
      if env.fsExists (trace ++ ev1) targetPath then
        ({ op := op, targetPath := targetPath, description := description,
           precondition := .targetExists, message := some "Destination already exists" }, ev2)
      else
        ({ op := op, targetPath := targetPath, description := description,
           precondition := .ok, message := none }, ev2)
  | .rename r =>
    let targetPath := toAbsolute baseRoot rootName r.toPath
    let resolved := resolveRenameSourcePath env trace baseRoot rootName r
    let sourcePath := resolved.1
    let ev1 := resolved.2 ++ [FsEvent.queryExists sourcePath]
    if ¬ env.fsExists (trace ++ resolved.2) sourcePath then
      ({ op := op, targetPath := targetPath, description := description,
         precondition := .missingSource, message := some "Source path is missing" }, ev1)
    else
      let ev2 := ev1 ++ [FsEvent.queryExists targetPath]
      if env.fsExists (trace ++ ev1) targetPath ∧ targetPath ≠ sourcePath then
        ({ op := op, targetPath := targetPath, description := description,
           precondition := .targetExists, message := some "Destination already exists" }, ev2)
      else
        ({ op := op, targetPath := targetPath, description := description,
           precondition := .ok, message := none }, ev2)
  | .delete d =>
    let targetPath := toAbsolute baseRoot rootName d.atPath
    let events := [FsEvent.queryExists targetPath]
    if ¬ env.fsExists trace targetPath then
      ({ op := op, targetPath := targetPath, description := description,
         precondition := .missingSource, message := none }, events)
    else
      ({ op := op, targetPath := targetPath, description := description,
         precondition := .ok, message := none }, events)

/-- The op fold of `buildDryRunReport`, threading the event trace. -/
def dryRunOps (env : FsEnv) (baseRoot rootName : String) :
    List Op → List FsEvent → List DryRunOpReport × List String × List FsEvent
  | [], _ => ([], [], [])
  | op :: rest, trace =>
    let (report, events) := dryRunOp env baseRoot rootName trace op
    let issue :=
      if report.precondition ≠ Precondition.ok then
        [report.description ++ ": " ++ (report.message.getD (precondStr report.precondition))]
      else []
    let (reports, issues, laterEvents) := dryRunOps env baseRoot rootName rest (trace ++ events)
    (report :: reports, issue ++ issues, events ++ laterEvents)

/-- Model of `buildDryRunReport` (also returns the emitted events). -/
def buildDryRunReport (env : FsEnv) (diff : Diff) (trace : List FsEvent) :
    DryRunReport × List FsEvent :=
  let rootName := inferRootName diff
  let (operations, issues, events) := dryRunOps env diff.baseRoot rootName diff.ops trace
  ({ baseRoot := diff.baseRoot, rootName := rootName, operations := operations,
     issues := issues }, events)

/-- The `while (true)` negotiation loop for a locked file: ask the handler;
on `retry`, re-probe and loop while still locked. Returns the decision that
ended the loop and the emitted events; `none` models the unbounded retry
conversation never ending. -/
def lockLoop (env : FsEnv) (p : String) :
    List FsEvent → Nat → Option (LockDecision × List FsEvent)
  | _, 0 => none
  | trace, fuel + 1 =>
    let d := env.lockedChoice trace p
    let ev1 := [FsEvent.askLocked p]
    if d = LockDecision.retry then
      let s := env.fsLock (trace ++ ev1) p
      let ev2 := ev1 ++ [FsEvent.lockProbe p]
      if s ≠ LockState.locked then some (LockDecision.retry, ev2)
      else
        match lockLoop env p (trace ++ ev2) fuel with
        | none => none
        | some (d2, events) => some (d2, ev2 ++ events)
    else some (d, ev1)

/-- Model of `shouldCheckLock`: only file-kind, non-create ops probe the
lock. -/
def shouldCheckLock (op : Op) : Bool :=
  op.kindOf = NodeKind.file ∧ op.typeTag ≠ OpType.create

/-- Outcome of the lock-negotiation section shared by the move, rename and
delete branches of `applyDiff`: either a terminal result (skipped, aborted
or failed) or permission to go on to the filesystem operation. -/
inductive LockOutcome where
  | proceed
  | terminal (status : OpStatus) (message : String) (abortedFlag : Bool)
deriving DecidableEq, Repr

/-- The lock-check section of a move/rename/delete branch: probe, negotiate
via the handler when locked, classify. `none` models a diverging retry
conversation. -/
def lockSection (env : FsEnv) (trace : List FsEvent) (p : String) :
    Option (LockOutcome × List FsEvent) :=
  let s := env.fsLock trace p
  let ev1 := [FsEvent.lockProbe p]
  if s = LockState.locked ∧ env.hasLockedHandler then
    match lockLoop env p (trace ++ ev1) env.retryFuel with
    | none => none
    | some (decision, events) =>
      match decision with
      | .skip => some (.terminal OpStatus.skipped "User skipped locked file" false, ev1 ++ events)
      | .abort => some (.terminal OpStatus.aborted "User aborted due to lock" true, ev1 ++ events)
      | .retry => some (.proceed, ev1 ++ events)
  else if s = LockState.locked then
    some (.terminal OpStatus.failed "File is locked" false, ev1)
  else
    some (.proceed, ev1)

/-- Runs one mutating filesystem call: emits the event and classifies the
outcome (`none` success, `some msg` a thrown error). -/
def runFs (env : FsEnv) (trace : List FsEvent) (ev : FsEvent) :
    Option String × List FsEvent :=
  (env.fsAct trace ev, [ev])

/-- One result record, the model of `recordResult`. -/
def recordResult (op : Op) (status : OpStatus) (targetPath : String)
    (message : Option String) : OpResult :=
  { type := op.typeTag, kind := op.kindOf, status := status,
    targetPath := targetPath, message := message }

/-- The shared move/rename/delete tail of the apply loop: lock negotiation
on `lockPath` when `shouldCheckLock`, then an optional `mkdir -p` of the
target's directory and the final filesystem call, mirroring the three
structurally identical branches of the source. -/
def applyFileOp (env : FsEnv) (trace : List FsEvent) (op : Op)
    (targetPath lockPath : String) (finalAction : FsEvent) (mkdirDir : Option String) :
    Option (OpResult × List FsEvent × Bool) :=
  let sectionResult :=
    if shouldCheckLock op then lockSection env trace lockPath
    else some (LockOutcome.proceed, [])
  match sectionResult with
  | none => none
  | some (LockOutcome.terminal status message flag, events) =>
    some (recordResult op status targetPath (some message), events, flag)
  | some (LockOutcome.proceed, events) =>
    match mkdirDir with
    | some dir =>
      let (outcome1, ev1) := runFs env (trace ++ events) (FsEvent.mkdirRecursive dir)
      match outcome1 with
      | some msg => some (recordResult op OpStatus.failed targetPath (some msg), events ++ ev1, false)
      | none =>
        let (outcome2, ev2) := runFs env (trace ++ events ++ ev1) finalAction
        match outcome2 with
        | some msg =>
          some (recordResult op OpStatus.failed targetPath (some msg), events ++ ev1 ++ ev2, false)
        | none =>
          some (recordResult op OpStatus.applied targetPath none, events ++ ev1 ++ ev2, false)
    | none =>
      let (outcome, ev1) := runFs env (trace ++ events) finalAction
      match outcome with
      | some msg => some (recordResult op OpStatus.failed targetPath (some msg), events ++ ev1, false)
      | none => some (recordResult op OpStatus.applied targetPath none, events ++ ev1, false)

/-- The per-type body of one loop iteration (the `try` block of the source
once the aborted and precondition gates have passed). -/
def applyOneBody (env : FsEnv) (baseRoot rootName : String) (trace : List FsEvent)
    (op : Op) : Option (OpResult × List FsEvent × Bool) :=
  match op with
  | .create c =>
    let targetPath := nodeJoin [toParentAbsolute baseRoot rootName c.parentPath, c.name]
    if c.kind = NodeKind.folder then
      let (outcome, ev1) := runFs env trace (FsEvent.mkdirRecursive targetPath)
      match outcome with
      | some msg => some (recordResult op OpStatus.failed targetPath (some msg), ev1, false)
      | none => some (recordResult op OpStatus.applied targetPath none, ev1, false)
    else
      let (outcome1, ev1) := runFs env trace (FsEvent.mkdirRecursive (nodeDirname targetPath))
      match outcome1 with
      | some msg => some (recordResult op OpStatus.failed targetPath (some msg), ev1, false)
      | none =>
        let (outcome2, ev2) := runFs env (trace ++ ev1) (FsEvent.writeFile targetPath)
        match outcome2 with
        | some msg => some (recordResult op OpStatus.failed targetPath (some msg), ev1 ++ ev2, false)
        | none => some (recordResult op OpStatus.applied targetPath none, ev1 ++ ev2, false)
  | .move m =>
    let sourcePath := toAbsolute baseRoot rootName m.fromPath
    let targetPath := resolveMoveTargetPath baseRoot rootName m
    applyFileOp env trace op targetPath sourcePath
      (FsEvent.renameFs sourcePath targetPath) (some (nodeDirname targetPath))
  | .rename r =>
    let desiredTarget := toAbsolute baseRoot rootName r.toPath
    let resolved := resolveRenameSourcePath env trace baseRoot rootName r
    let sourcePath := resolved.1
    match applyFileOp env (trace ++ resolved.2) op desiredTarget sourcePath
        (FsEvent.renameFs sourcePath desiredTarget) (some (nodeDirname desiredTarget)) with
    | none => none
    | some (res, events, flag) => some (res, resolved.2 ++ events, flag)
  | .delete d =>
    let targetPath := toAbsolute baseRoot rootName d.atPath
    applyFileOp env trace op targetPath targetPath
      (FsEvent.removeFs targetPath (d.recursive.getD false)) none

/-- Processing of a single operation inside `applyDiff`'s loop: the
already-aborted short circuit, the dry-run precondition gate, then the
per-type body. -/
def applyOne (env : FsEnv) (baseRoot rootName : String) (trace : List FsEvent)
    (aborted : Bool) (op : Op) (info : Option DryRunOpReport) :
    Option (OpResult × List FsEvent × Bool) :=
  if aborted then
    some (recordResult op OpStatus.aborted (describeOp baseRoot rootName op) none, [], true)
  else
    match info with
    | some i =>
      if i.precondition ≠ Precondition.ok then
        some (recordResult op OpStatus.failed i.targetPath i.message, [], false)
      else applyOneBody env baseRoot rootName trace op
    | none => applyOneBody env baseRoot rootName trace op

/-- The sequential op loop of `applyDiff`, threading the trace and the
aborted flag and recording the events attributable to each operation. -/
def applyLoop (env : FsEnv) (baseRoot rootName : String) :
    List (Op × Option DryRunOpReport) → List FsEvent → Bool →
    Option (List (OpResult × List FsEvent) × Bool)
  | [], _, aborted => some ([], aborted)
  | (op, info) :: rest, trace, aborted =>
    match applyOne env baseRoot rootName trace aborted op info with
    | none => none
    | some (res, events, aborted1) =>
      match applyLoop env baseRoot rootName rest (trace ++ events) aborted1 with
      | none => none
      | some (restResults, abortedEnd) => some ((res, events) :: restResults, abortedEnd)

/-- Response of `applyDiff` (`DiffApplyResponse`, with the snapshot document
abstracted to the fact that one was generated). -/
structure ApplyResponse where
  ok : Bool
  results : List OpResult
  dryRunReport : DryRunReport
  aborted : Bool
  snapshotGenerated : Bool
deriving DecidableEq, Repr

/-- Model of `applyDiff`: dry-run, confirmation gate, sequential op loop,
then snapshot regeneration unless the run aborted. Returns the response
together with the per-operation event attribution; `none` models a retry
conversation that never ends. -/
def applyDiff (env : FsEnv) (diff : Diff) :
    Option (ApplyResponse × List (List FsEvent)) :=
  let rootName := inferRootName diff
  let (dryRunReport, dryEvents) := buildDryRunReport env diff []
  let declined :=
    match env.confirmGate with
    | some gate => ! gate dryRunReport
    | none => false
  if declined then
    some ({ ok := false, results := [], dryRunReport := dryRunReport, aborted := true,
            snapshotGenerated := false }, [])
  else
    let pairs := diff.ops.enum.map (fun p => (p.2, dryRunReport.operations.get? p.1))
    match applyLoop env diff.baseRoot rootName pairs dryEvents false with
    | none => none
    | some (resultsEvents, abortedEnd) =>
      let results := resultsEvents.map (fun p => p.1)
      let ok := ! results.any (fun r => r.status = OpStatus.failed ∨ r.status = OpStatus.aborted)
      some ({ ok := ok, results := results, dryRunReport := dryRunReport,
              aborted := abortedEnd, snapshotGenerated := ok ∨ ¬ abortedEnd },
        resultsEvents.map (fun p => p.2))

/-! ### Small concrete trees used as witnesses -/

/-- Root folder of the three-node demo tree. -/
def demoRoot : SandboxNode :=
  { id := "root", name := "Projects", kind := NodeKind.folder, parentId := none,
    children := ["n-1"], fromSnapshot := true,
    originalName := some "Projects", originalParentId := some none }

/-- The `docs` folder of the demo tree. -/
def demoDocs : SandboxNode :=
  { id := "n-1", name := "docs", kind := NodeKind.folder, parentId := some "root",
    children := ["n-2"], fromSnapshot := true,
    originalName := some "docs", originalParentId := some (some "root") }

/-- The `readme.md` file of the demo tree. -/
def demoReadme : SandboxNode :=
  { id := "n-2", name := "readme.md", kind := NodeKind.file, parentId := some "n-1",
    children := [], fromSnapshot := true,
    originalName := some "readme.md", originalParentId := some (some "n-1") }

/-- A small well-formed tree: `Projects/docs/readme.md`. -/
def demoTree : SandboxTree :=
  { nodes := [("root", demoRoot), ("n-1", demoDocs), ("n-2", demoReadme)],
    rootId := "root", snapshotRootPath := "C:/Projects",
    originalPaths :=
      [("root", "Projects"), ("n-1", "Projects/docs"), ("n-2", "Projects/docs/readme.md")],
    originalNodes :=
      [("root", { name := "Projects", parentId := none, kind := NodeKind.folder }),
       ("n-1", { name := "docs", parentId := some "root", kind := NodeKind.folder }),
       ("n-2", { name := "readme.md", parentId := some "n-1", kind := NodeKind.file })],
    nextLocalId := 1, diffSequence := 0 }

instance : IsTotal CreateOp createLe := ⟨by
  intro a b
  unfold createLe
  rcases Nat.lt_trichotomy (pathDepth a.parentPath) (pathDepth b.parentPath) with h | h | h
  · exact Or.inl (Or.inl h)
  · rcases le_total a.name b.name with hn | hn
    · exact Or.inl (Or.inr ⟨h, hn⟩)
    · exact Or.inr (Or.inr ⟨h.symm, hn⟩)
  · exact Or.inr (Or.inl h)⟩

instance : IsTrans CreateOp createLe := ⟨by
  intro a b c hab hbc
  unfold createLe at *
  rcases hab with h1 | ⟨e1, n1⟩ <;> rcases hbc with h2 | ⟨e2, n2⟩
  · exact Or.inl (lt_trans h1 h2)
  · exact Or.inl (e2 ▸ h1)
  · exact Or.inl (e1 ▸ h2)
  · exact Or.inr ⟨e1.trans e2, le_trans n1 n2⟩⟩

instance : IsTotal MoveOp moveLe := ⟨by
  intro a b
  unfold moveLe
  rcases Nat.lt_trichotomy (pathDepth a.toParentPath) (pathDepth b.toParentPath) with h | h | h
  · exact Or.inl (Or.inl h)
  · rcases le_total a.id b.id with hn | hn
    · exact Or.inl (Or.inr ⟨h, hn⟩)
    · exact Or.inr (Or.inr ⟨h.symm, hn⟩)
  · exact Or.inr (Or.inl h)⟩

instance : IsTrans MoveOp moveLe := ⟨by
  intro a b c hab hbc
  unfold moveLe at *
  rcases hab with h1 | ⟨e1, n1⟩ <;> rcases hbc with h2 | ⟨e2, n2⟩
  · exact Or.inl (lt_trans h1 h2)
  · exact Or.inl (e2 ▸ h1)
  · exact Or.inl (e1 ▸ h2)
  · exact Or.inr ⟨e1.trans e2, le_trans n1 n2⟩⟩

instance : IsTotal RenameOp renameLe := ⟨by
  intro a b
  unfold renameLe
  exact le_total a.toPath b.toPath⟩

instance : IsTrans RenameOp renameLe := ⟨by
  intro a b c hab hbc
  unfold renameLe at *
  exact le_trans hab hbc⟩

instance : IsTotal DeleteOp deleteLe := ⟨by
  intro a b
  unfold deleteLe
  rcases Nat.lt_trichotomy (pathDepth a.atPath) (pathDepth b.atPath) with h | h | h
  · exact Or.inr (Or.inl h)
  · rcases le_total a.id b.id with hn | hn
    · exact Or.inl (Or.inr ⟨h, hn⟩)
    · exact Or.inr (Or.inr ⟨h.symm, hn⟩)
  · exact Or.inl (Or.inl h)⟩

instance : IsTrans DeleteOp deleteLe := ⟨by
  intro a b c hab hbc
  unfold deleteLe at *
  rcases hab with h1 | ⟨e1, n1⟩ <;> rcases hbc with h2 | ⟨e2, n2⟩
  · exact Or.inl (lt_trans h2 h1)
  · exact Or.inl (e2 ▸ h1)
  · exact Or.inl (e1 ▸ h2)
  · exact Or.inr ⟨e1.trans e2, le_trans n1 n2⟩⟩

/-- The (empty-ops) diff of an unmutated demo tree, used by the witnesses. -/
def demoDiff : Diff :=
  { baseRoot := "C:/Projects", ops := [],
    meta := { createdAtIso := "t", uid := "sandbox-diff-0" } }

/-- A staged tree: one session-created folder (`local-1`) and one original
file (`b`) deleted, so the generated diff has both a `Create` and a `Delete`
op. -/
def stagedRoot : SandboxNode :=
  { id := "r", name := "Root", kind := NodeKind.folder, parentId := none,
    children := ["a", "local-1"], fromSnapshot := true,
    originalName := some "Root", originalParentId := some none }

/-- The surviving original file of `stagedTree`. -/
def stagedFile : SandboxNode :=
  { id := "a", name := "x.txt", kind := NodeKind.file, parentId := some "r",
    children := [], fromSnapshot := true,
    originalName := some "x.txt", originalParentId := some (some "r") }

/-- The session-created folder of `stagedTree`. -/
def stagedNew : SandboxNode :=
  { id := "local-1", name := "new", kind := NodeKind.folder, parentId := some "r",
    children := [], fromSnapshot := false,
    originalName := none, originalParentId := none }

def stagedTree : SandboxTree :=
  { nodes := [("r", stagedRoot), ("a", stagedFile), ("local-1", stagedNew)],
    rootId := "r", snapshotRootPath := "/tmp/root",
    originalPaths := [("r", "Root"), ("a", "Root/x.txt"), ("b", "Root/gone.txt")],
    originalNodes :=
      [("r", { name := "Root", parentId := none, kind := NodeKind.folder }),
       ("a", { name := "x.txt", parentId := some "r", kind := NodeKind.file }),
       ("b", { name := "gone.txt", parentId := some "r", kind := NodeKind.file })],
    nextLocalId := 2, diffSequence := 0 }

/-- The diff generated from `stagedTree`. -/
def stagedDiff : Diff :=
  { baseRoot := "/tmp/root",
    ops := [Op.create { parentPath := "Root", name := "new", kind := NodeKind.folder },
            Op.delete { id := "b", kind := NodeKind.file, atPath := "Root/gone.txt",
                        recursive := none }],
    meta := { createdAtIso := "t", uid := "sandbox-diff-0" } }

/-- Whether an op is a `Delete` carrying the given id. -/
def isDeleteFor (id : String) : Op → Bool
  | .delete d => d.id = id
  | _ => false

/-- Snapshot `Projects/g/p/x.txt` used to reach the C2 counterexample
state. -/
def c2Snapshot : Snapshot :=
  { rootPath := "C:/Projects",
    tree := .mk "root" "Projects" .folder
      [ .mk "g" "g" .folder [ .mk "p" "p" .folder [ .mk "x" "x.txt" .file [] ] ] ] }

/-- The tree as loaded from `c2Snapshot`. -/
def c2T0 : SandboxTree := (buildSandboxTree c2Snapshot 8).getD emptyTree

/-- `c2T0` after `moveNode p → root` (pinned literal; see
`c2T1_reached`). -/
def c2T1 : SandboxTree :=
  { nodes :=
      [("root",
        { id := "root", name := "Projects", kind := NodeKind.folder, parentId := none,
          children := ["g", "p"], fromSnapshot := true,
          originalName := some "Projects", originalParentId := some none }),
       ("g",
        { id := "g", name := "g", kind := NodeKind.folder, parentId := some "root",
          children := [], fromSnapshot := true,
          originalName := some "g", originalParentId := some (some "root") }),
       ("p",
        { id := "p", name := "p", kind := NodeKind.folder, parentId := some "root",
          children := ["x"], fromSnapshot := true,
          originalName := some "p", originalParentId := some (some "g") }),
       ("x",
        { id := "x", name := "x.txt", kind := NodeKind.file, parentId := some "p",
          children := [], fromSnapshot := true,
          originalName := some "x.txt", originalParentId := some (some "p") })],
    rootId := "root", snapshotRootPath := "C:/Projects",
    originalPaths :=
      [("root", "Projects"), ("g", "Projects/g"), ("p", "Projects/g/p"),
       ("x", "Projects/g/p/x.txt")],
    originalNodes :=
      [("root", { name := "Projects", parentId := none, kind := NodeKind.folder }),
       ("g", { name := "g", parentId := some "root", kind := NodeKind.folder }),
       ("p", { name := "p", parentId := some "g", kind := NodeKind.folder }),
       ("x", { name := "x.txt", parentId := some "p", kind := NodeKind.file })],
    nextLocalId := 1, diffSequence := 0 }

/-- `c2T1` after `deleteNode x` (pinned literal; see `c2T2_reached`). -/
def c2T2 : SandboxTree :=
  { c2T1 with nodes :=
      [("root",
        { id := "root", name := "Projects", kind := NodeKind.folder, parentId := none,
          children := ["g", "p"], fromSnapshot := true,
          originalName := some "Projects", originalParentId := some none }),
       ("g",
        { id := "g", name := "g", kind := NodeKind.folder, parentId := some "root",
          children := [], fromSnapshot := true,
          originalName := some "g", originalParentId := some (some "root") }),
       ("p",
        { id := "p", name := "p", kind := NodeKind.folder, parentId := some "root",
          children := [], fromSnapshot := true,
          originalName := some "p", originalParentId := some (some "g") })] }

/-- `c2T2` after `deleteNode g` (pinned literal; see `c2T3_reached`): `x`
and its original grandparent `g` are both deleted, while `x`'s original
parent `p` survives (it was moved to the root first). -/
def c2T3 : SandboxTree :=
  { c2T1 with nodes :=
      [("root",
        { id := "root", name := "Projects", kind := NodeKind.folder, parentId := none,
          children := ["p"], fromSnapshot := true,
          originalName := some "Projects", originalParentId := some none }),
       ("p",
        { id := "p", name := "p", kind := NodeKind.folder, parentId := some "root",
          children := [], fromSnapshot := true,
          originalName := some "p", originalParentId := some (some "g") })] }

/-! ### Decimal rendering: injectivity -/

/-- Value of a digit list, most significant first. -/
def digitsValue (l : List Nat) : Nat :=
  l.foldl (fun acc d => acc * 10 + d) 0

/-- Whether some (non-excluded) sibling already carries the candidate name
for a given suffix; the loop condition of `suffixSearch`. -/
def collidesAt (siblings : List SandboxNode) (excludeId : Option String)
    (stem ext : String) (k : Nat) : Bool :=
  siblings.any (fun s => s.name = suffixCandidate stem ext k ∧ notExcluded excludeId s.id)

/-- The sibling nodes of a parent, as `resolveNameConflict` computes them. -/
def siblingsOf (tree : SandboxTree) (parent : SandboxNode) : List SandboxNode :=
  parent.children.filterMap (fun childId => mapGet? tree.nodes childId)

/-! ### C6: error atomicity of the mutating operations -/

/-- The tree invariant "every id reachable from a node's child list exists
in the map", stated decidably over the entry list. -/
def childrenClosed (tree : SandboxTree) : Bool :=
  tree.nodes.all (fun e => e.2.children.all (fun c => mapHas tree.nodes c))

/-- Key consistency: every map entry's stored node carries the entry key as
its id (an invariant of every tree the API builds). -/
def keyConsistent (tree : SandboxTree) : Bool :=
  tree.nodes.all (fun e => decide (e.2.id = e.1))

/-- The tree carried by a concrete failing call (move a file into itself:
`TargetNotAFolder`). -/
def c6ErrTree : SandboxTree :=
  match moveNode demoTree "n-2" "n-2" with
  | .error (_, t) => t
  | .ok (t, _) => t

/-- First delete op of the abort-propagation run. -/
def c7Del1 : DeleteOp :=
  { id := "n-2", kind := NodeKind.file, atPath := "Projects/docs/readme.md", recursive := none }

/-- Second delete op of the abort-propagation run. -/
def c7Del2 : DeleteOp :=
  { id := "n-9", kind := NodeKind.file, atPath := "Projects/notes.txt", recursive := none }

/-- A two-delete diff over the demo snapshot root. -/
def c7Diff : Diff :=
  { baseRoot := "C:/Projects",
    ops := [Op.delete c7Del1, Op.delete c7Del2],
    meta := { createdAtIso := "2024-01-01T00:00:00.000Z", uid := "sandbox-diff-0" } }

/-- An environment where every path exists, every lock probe reports locked,
and the locked-file handler always answers `abort`. -/
def c7Env : FsEnv :=
  { fsExists := fun _ _ => true,
    fsLock := fun _ _ => LockState.locked,
    lockedChoice := fun _ _ => LockDecision.abort,
    fsAct := fun _ _ => none,
    confirmGate := none,
    hasLockedHandler := true,
    retryFuel := 3 }

/-- The concrete run of the abort-propagation witness. -/
def c7Out : ApplyResponse × List (List FsEvent) :=
  (applyDiff c7Env c7Diff).getD
    ({ ok := false,
       results := [],
       dryRunReport := { baseRoot := "", rootName := "", operations := [], issues := [] },
       aborted := false,
       snapshotGenerated := false }, [])

/-- Recorded result of the first op of the witness run. -/
def c7RI : OpResult :=
  (c7Out.1.results.get? 0).getD (recordResult (Op.delete c7Del1) OpStatus.failed "" none)

/-- Recorded result of the second op of the witness run. -/
def c7RJ : OpResult :=
  (c7Out.1.results.get? 1).getD (recordResult (Op.delete c7Del2) OpStatus.failed "" none)

/-- Events attributed to the second op of the witness run. -/
def c7EvJ : List FsEvent :=
  (c7Out.2.get? 1).getD [FsEvent.makeSnapshot ""]

/-! ### C10: serialise / restore round trip -/

/-- Projection: recorded parentId of a serialized fragment node. -/
def SerializedSandboxNode.parentOf : SerializedSandboxNode → Option String
  | .mk _ _ _ p _ _ _ _ => p

/-- Replace the recorded parentId of a fragment root. -/
def SerializedSandboxNode.withParent : SerializedSandboxNode → Option String →
    SerializedSandboxNode
  | .mk id name kind _ fs onm opar cs, p => .mk id name kind p fs onm opar cs

/-- All node ids of a fragment down to the given depth (any fuel at least
the fragment depth lists them all, in pre-order). -/
def fragIds : Nat → SerializedSandboxNode → List String
  | 0, _ => []
  | fuel + 1, .mk id _ _ _ _ _ _ children => id :: children.flatMap (fragIds fuel)

/-- The node `restoreSubtree` ends up storing for a fragment node restored
under parent `p`. -/
def finalNodeOf : SerializedSandboxNode → Option String → SandboxNode
  | .mk id name kind _ fs onm opar cs, p =>
    { id := id, name := name, kind := kind, parentId := p,
      children := cs.map SerializedSandboxNode.sid, fromSnapshot := fs,
      originalName := onm, originalParentId := opar }

/-- Internal parent consistency of a fragment: every child records its
actual parent's id (true of every fragment `serialiseSubtree` produces from
a well-formed tree). -/
def parentConsistent : Nat → SerializedSandboxNode → Bool
  | 0, _ => true
  | fuel + 1, .mk id _ _ _ _ _ _ cs =>
    cs.all (fun c => decide (c.parentOf = some id) && parentConsistent fuel c)

/-- The fragment is fully materialised in the node map: every fragment node
maps to exactly its restored form. -/
def restoredIn : Nat → List (String × SandboxNode) → Option String →
    SerializedSandboxNode → Bool
  | 0, _, _, _ => false
  | fuel + 1, m, p, s =>
    decide (mapGet? m s.sid = some (finalNodeOf s p)) &&
      s.childrenOf.all (fun c => restoredIn fuel m (some s.sid) c)

/-- The two-node fragment of the round-trip witness (`pics/cat.png`). -/
def c10FragChild : SerializedSandboxNode :=
  .mk "f-2" "cat.png" NodeKind.file (some "f-1") true (some "cat.png") (some (some "f-1")) []

/-- Root of the round-trip witness fragment. -/
def c10Frag : SerializedSandboxNode :=
  .mk "f-1" "pics" NodeKind.folder (some "old") true (some "pics") (some (some "old"))
    [c10FragChild]

/-- The concrete restore of the round-trip witness. -/
def c10Res : SandboxTree × SandboxNode :=
  (restoreSubtree 3 demoTree (some "n-1") c10Frag).getD (demoTree, demoRoot)

/-- Sanity checks of the path model against the documented behaviour. -/
theorem normalisePath_checks :
    normalisePath "C:/Projects/./src/../docs" = .ok "C:/Projects/docs" ∧
    normalisePath "C:\\Projects\\docs\\" = .ok "C:/Projects/docs" ∧
    normalisePath "/var//log/../tmp/" = .ok "/var/tmp" ∧
    normalisePath ".." PathKind.relativeOnly = .error .escapesRoot ∧
    normalisePath "./C:y" = .ok "C:y" ∧
    normalisePath "C:y" = .ok "C:" := by
  refine ⟨by decide, by decide, by decide, by decide, by decide, by decide⟩

/-- Sanity checks of the stem/extension split. -/
theorem splitStemAndExtension_checks :
    splitStemAndExtension ".bashrc" = { stem := ".bashrc", extension := "" } ∧
    splitStemAndExtension "a.config.json" =
      { stem := "a.config", extension := ".json" } := by
  refine ⟨by decide, by decide⟩

set_option maxHeartbeats 2000000 in
/-- Sanity check: the test fixture snapshot loads. -/
theorem fixtureTree_loads : (buildSandboxTree fixtureSnapshot 8).isSome = true := by decide

set_option maxHeartbeats 2000000 in
/-- Sanity check: path resolution on the loaded fixture. -/
theorem fixtureTree_pathOf : pathOf fixtureTree "n-4" = .ok "Projects/src/index.ts" := by decide

set_option maxHeartbeats 2000000 in
/-- Sanity check: root children of the loaded fixture, in snapshot order. -/
theorem fixtureTree_rootChildren :
    (mapGet? fixtureTree.nodes "root").map SandboxNode.children =
    some ["n-1", "n-3", "n-6"] := by decide

set_option maxHeartbeats 2000000 in
/-- Sanity check: original paths recorded while loading the fixture. -/
theorem fixtureTree_originalPath :
    mapGet? fixtureTree.originalPaths "n-5" = some "Projects/src/App.tsx" := by decide

/-! ### Claim theorems -/

/-- C1: moving a folder into itself is the claimed-impossible case
`target = id`. The code does NOT fail with `CannotMoveIntoDescendant`: the
call returns successfully, detaches `n-1` from the root and re-parents it
into itself (`parentId = "n-1"`, its own id in its child list), breaking the
acyclicity invariant. This evaluates the embedded `moveNode` at the failing
input, exhibiting the divergence between the claim and the code. -/
theorem c1_moveNode_into_itself_succeeds :
    (moveNode demoTree "n-1" "n-1").isOk = true ∧
    (mapGet? (afterMutation (moveNode demoTree "n-1" "n-1")).nodes "n-1").map
      (fun n => (n.parentId, n.children)) = some (some "n-1", ["n-2", "n-1"]) ∧
    (mapGet? (afterMutation (moveNode demoTree "n-1" "n-1")).nodes "root").map
      SandboxNode.children = some [] := by decide

/-- C8: the claimed idempotence of normalisation fails on the code.
`normalisePath "./C:y"` succeeds with `"C:y"`, but normalising that output
again takes the drive branch, whose `slice(root.length + 1)` assumes a
separator after the colon and silently drops the `y`, yielding `"C:"`.
Hence `normalise (normalise p) ≠ normalise p` for `p = "./C:y"`. -/
theorem c8_normalisePath_not_idempotent :
    normalisePath "./C:y" PathKind.absoluteOrRelative = .ok "C:y" ∧
    normalisePath "C:y" PathKind.absoluteOrRelative = .ok "C:" ∧
    (Except.ok "C:" : Except PathError String) ≠ .ok "C:y" := by decide

/-- C9 counterexample: `.config.json` is a dotfile (it starts with a dot)
but `splitStemAndExtension` gives it the non-empty extension `.json`; only
a dot at position 0 that is also the last dot is special-cased. -/
theorem c9_dotfile_counterexample :
    startsWithChar ".config.json" '.' = true ∧
    (splitStemAndExtension ".config.json").extension = ".json" ∧
    (splitStemAndExtension ".config.json").stem = ".config" := by decide

/-- Helper: a scan over characters none of which is a dot leaves the
accumulator unchanged. -/
theorem lastDotIndexAux_no_dot (cs : List Char) (i : Nat) (acc : Option Nat)
    (h : ∀ c ∈ cs, c ≠ '.') : lastDotIndexAux cs i acc = acc := by
  induction cs generalizing i acc with
  | nil => rfl
  | cons c rest ih =>
    have hc : c ≠ '.' := h c (List.mem_cons_self c rest)
    simp only [lastDotIndexAux, if_neg hc]
    exact ih (i + 1) acc (fun x hx => h x (List.mem_cons_of_mem c hx))

/-- C9 (amended): a dotfile whose only dot is the leading one is split into
the whole name as stem and an empty extension. (A dotfile with a later dot
is split at that last dot instead, as the counterexample shows.) -/
theorem c9_dotfile_no_extension (name : String) (tail : List Char)
    (hdot : name.data = '.' :: tail) (hrest : ∀ c ∈ tail, c ≠ '.') :
    splitStemAndExtension name = { stem := name, extension := "" } := by
  have haux : lastDotIndex name = some 0 := by
    unfold lastDotIndex
    rw [hdot]
    simp only [lastDotIndexAux, if_pos rfl]
    exact lastDotIndexAux_no_dot tail 1 (some 0) hrest
  unfold splitStemAndExtension
  rw [haux]

/-- C9 witness: the amended statement applied to `.bashrc`. -/
theorem c9_dotfile_no_extension_witness :
    splitStemAndExtension ".bashrc" = { stem := ".bashrc", extension := "" } :=
  c9_dotfile_no_extension ".bashrc" "bashrc".data (by decide) (by decide)

/-- C3: `generateDiff` is deterministic across repeated calls on an
unchanged tree. The first call only bumps `diffSequence`, which the op
computation never reads, so a second call succeeds and produces the same
`ops` list element for element (only the timestamp and the
sequence-numbered uid in `meta` may differ). -/
theorem c3_generateDiff_deterministic (t : SandboxTree) (ts1 ts2 : String)
    (d1 : Diff) (t1 : SandboxTree) (h : generateDiff t ts1 = .ok (d1, t1)) :
    ∃ d2 t2, generateDiff t1 ts2 = .ok (d2, t2) ∧ d2.ops = d1.ops := by
  unfold generateDiff at h ⊢
  cases hg : generateOpsCore t.nodes t.originalNodes t.originalPaths with
  | error e => rw [hg] at h; exact absurd h (by simp)
  | ok ops =>
    rw [hg] at h
    simp only [Except.ok.injEq, Prod.mk.injEq] at h
    obtain ⟨hd, ht⟩ := h
    have hnodes : t1.nodes = t.nodes := by rw [← ht]
    have horig : t1.originalNodes = t.originalNodes := by rw [← ht]
    have hpaths : t1.originalPaths = t.originalPaths := by rw [← ht]
    rw [hnodes, horig, hpaths, hg]
    exact ⟨_, _, rfl, by rw [← hd]⟩

/-- C4: every diff `generateDiff` produces lists all `Create` ops, then all
`Move` ops, then all `Rename` ops, then all `Delete` ops, each class sorted
by its comparator: creates by ascending parent-path depth then name, moves
by ascending destination-parent depth then id, renames by destination path,
deletes by descending original-path depth then id. -/
theorem c4_generateDiff_op_order (tree : SandboxTree) (nowIso : String)
    (d : Diff) (t' : SandboxTree) (h : generateDiff tree nowIso = .ok (d, t')) :
    ∃ (cs : List CreateOp) (ms : List MoveOp) (rs : List RenameOp) (ds : List DeleteOp),
      d.ops = cs.map Op.create ++ ms.map Op.move ++ rs.map Op.rename ++ ds.map Op.delete ∧
      List.Sorted createLe cs ∧ List.Sorted moveLe ms ∧
      List.Sorted renameLe rs ∧ List.Sorted deleteLe ds := by
  unfold generateDiff at h
  cases hg : generateOpsCore tree.nodes tree.originalNodes tree.originalPaths with
  | error e => rw [hg] at h; exact absurd h (by simp)
  | ok ops =>
    rw [hg] at h
    simp only [Except.ok.injEq, Prod.mk.injEq] at h
    obtain ⟨hd, _⟩ := h
    unfold generateOpsCore at hg
    cases hc : collectOps tree.nodes tree.originalNodes tree.originalPaths with
    | error e => rw [hc] at hg; exact absurd hg (by simp)
    | ok triple =>
      obtain ⟨cs0, ms0, rs0⟩ := triple
      rw [hc] at hg
      simp only [Except.ok.injEq] at hg
      refine ⟨List.insertionSort createLe cs0, List.insertionSort moveLe ms0,
        List.insertionSort renameLe rs0,
        List.insertionSort deleteLe
          (collectDeletes tree.nodes tree.originalNodes tree.originalPaths), ?_, ?_, ?_, ?_, ?_⟩
      · rw [← hd, ← hg]
      · exact List.sorted_insertionSort createLe cs0
      · exact List.sorted_insertionSort moveLe ms0
      · exact List.sorted_insertionSort renameLe rs0
      · exact List.sorted_insertionSort deleteLe _

/-- C3 witness: the theorem applied to the concrete demo tree; the second
call yields the same (here empty) op list. -/
theorem c3_generateDiff_deterministic_witness :
    ∃ d2 t2, generateDiff { demoTree with diffSequence := 1 } "u" = .ok (d2, t2) ∧
      d2.ops = demoDiff.ops :=
  c3_generateDiff_deterministic demoTree "t" "u" demoDiff
    { demoTree with diffSequence := 1 } (by decide)

/-- C4 witness: the theorem applied to the staged tree, whose diff carries a
`Create` and a `Delete`. -/
theorem c4_generateDiff_op_order_witness :
    ∃ (cs : List CreateOp) (ms : List MoveOp) (rs : List RenameOp) (ds : List DeleteOp),
      stagedDiff.ops = cs.map Op.create ++ ms.map Op.move ++ rs.map Op.rename ++
        ds.map Op.delete ∧
      List.Sorted createLe cs ∧ List.Sorted moveLe ms ∧
      List.Sorted renameLe rs ∧ List.Sorted deleteLe ds :=
  c4_generateDiff_op_order stagedTree "t" stagedDiff { stagedTree with diffSequence := 1 }
    (by decide)

/-- A key has an entry exactly when some pair of the list carries it. -/
theorem mapHas_iff (m : List (String × α)) (k : String) :
    mapHas m k = true ↔ ∃ e ∈ m, e.1 = k := by
  unfold mapHas mapGet?
  cases hf : m.find? (fun p => p.1 = k) with
  | none =>
    simp only [Option.map_none', Option.isSome_none]
    constructor
    · intro h; exact absurd h (by simp)
    · rintro ⟨e, he, hk⟩
      have hnone := List.find?_eq_none.mp hf e he
      simp [hk] at hnone
  | some e =>
    simp only [Option.map_some', Option.isSome_some, true_iff]
    have hmem := List.mem_of_find?_eq_some hf
    have hkey := List.find?_some hf
    exact ⟨e, hmem, by simpa using hkey⟩

/-- Membership in the deleted-id set: present among the originals, absent
from the current nodes. -/
theorem mem_deletedIdsOf (nodes : List (String × SandboxNode))
    (origNodes : List (String × OriginalNode)) (j : String) :
    j ∈ deletedIdsOf nodes origNodes ↔
      mapHas origNodes j = true ∧ mapHas nodes j = false := by
  unfold deletedIdsOf
  simp only [List.mem_map, List.mem_filter]
  constructor
  · rintro ⟨e, ⟨hmem, hfil⟩, rfl⟩
    refine ⟨(mapHas_iff _ _).mpr ⟨e, hmem, rfl⟩, ?_⟩
    simpa using hfil
  · rintro ⟨hhas, hmiss⟩
    obtain ⟨e, hmem, hkey⟩ := (mapHas_iff _ _).mp hhas
    exact ⟨e, ⟨hmem, by simpa [hkey] using hmiss⟩, hkey⟩

/-- The deleted-id list inherits distinctness from the original-key list. -/
theorem deletedIdsOf_nodup (nodes : List (String × SandboxNode))
    (origNodes : List (String × OriginalNode))
    (h : (origNodes.map Prod.fst).Nodup) :
    (deletedIdsOf nodes origNodes).Nodup := by
  unfold deletedIdsOf
  exact h.sublist ((List.filter_sublist origNodes).map Prod.fst)

/-- The conditional-append fold of the delete pass is an append of a
`filterMap`. -/
theorem foldl_emit_eq_append (f : String → Option DeleteOp) :
    ∀ (L : List String) (acc : List DeleteOp),
      L.foldl (fun acc id =>
        match f id with
        | none => acc
        | some op => acc ++ [op]) acc = acc ++ L.filterMap f := by
  intro L
  induction L with
  | nil => intro acc; simp
  | cons x xs ih =>
    intro acc
    simp only [List.foldl_cons, List.filterMap_cons]
    cases hf : f x with
    | none => rw [ih]
    | some op => rw [ih]; simp

/-- An emitted delete op carries the id it was emitted for. -/
theorem deleteOpFor_id (origNodes : List (String × OriginalNode))
    (origPaths : List (String × String)) (deletedIds : List String) (j : String)
    (op : DeleteOp) (h : deleteOpFor origNodes origPaths deletedIds j = some op) :
    op.id = j := by
  unfold deleteOpFor at h
  cases hg : mapGet? origNodes j with
  | none => rw [hg] at h; exact absurd h (by simp)
  | some original =>
    rw [hg] at h
    dsimp only at h
    split at h
    · exact absurd h (by simp)
    · simp only [Option.some.injEq] at h
      rw [← h]

/-- Counting ops with a fixed id in a `filterMap` whose emissions carry
their source id: one when the id is in the (distinct) source list and emits,
zero otherwise. -/
theorem countP_filterMap_id (f : String → Option DeleteOp)
    (hf : ∀ j op, f j = some op → op.id = j) (id : String) :
    ∀ L : List String, L.Nodup →
      (L.filterMap f).countP (fun d => d.id = id) =
        if id ∈ L ∧ (f id).isSome then 1 else 0 := by
  intro L
  induction L with
  | nil => intro _; simp
  | cons x xs ih =>
    intro hnd
    rw [List.filterMap_cons]
    cases hfx : f x with
    | none =>
      rw [ih (List.Nodup.of_cons hnd)]
      by_cases hx : id = x
      · subst hx
        simp [hfx]
      · simp [List.mem_cons, hx]
    | some op =>
      rw [List.countP_cons, ih (List.Nodup.of_cons hnd)]
      by_cases hx : id = x
      · subst hx
        have hop : op.id = id := hf id op hfx
        have hmem : id ∉ xs := (List.nodup_cons.mp hnd).1
        simp [hop, hfx, hmem]
      · have hop : op.id = x := hf x op hfx
        have hne : ¬ (op.id = id) := by rw [hop]; exact fun hh => hx hh.symm
        simp [hne, List.mem_cons, hx]

/-- C2 (amended): for an id present in `originalNodes` but absent from the
current nodes, the generated diff contains exactly one `Delete` op for that
id — unless the id's IMMEDIATE original parent is itself deleted in the same
pass, in which case it contains none. (The source checks only
`original.parentId` against the deleted set, not the whole original ancestor
chain; the counterexample shows a deleted grandparent does not suppress the
op.) -/
theorem c2_delete_op_emission (t : SandboxTree) (nowIso : String) (id : String)
    (orig : OriginalNode) (d : Diff) (t' : SandboxTree)
    (hnodup : (t.originalNodes.map Prod.fst).Nodup)
    (horig : mapGet? t.originalNodes id = some orig)
    (hmiss : mapHas t.nodes id = false)
    (hdiff : generateDiff t nowIso = .ok (d, t')) :
    d.ops.countP (isDeleteFor id) =
      (match orig.parentId with
       | some p =>
         if p ≠ "" ∧ mapHas t.originalNodes p = true ∧ mapHas t.nodes p = false
         then 0 else 1
       | none => 1) := by
  unfold generateDiff at hdiff
  cases hops : generateOpsCore t.nodes t.originalNodes t.originalPaths with
  | error e => rw [hops] at hdiff; exact absurd hdiff (by simp)
  | ok ops =>
    rw [hops] at hdiff
    simp only [Except.ok.injEq, Prod.mk.injEq] at hdiff
    obtain ⟨hd, _⟩ := hdiff
    rw [← hd]
    unfold generateOpsCore at hops
    cases hc : collectOps t.nodes t.originalNodes t.originalPaths with
    | error e => rw [hc] at hops; exact absurd hops (by simp)
    | ok triple =>
      obtain ⟨cs0, ms0, rs0⟩ := triple
      rw [hc] at hops
      simp only [Except.ok.injEq] at hops
      rw [← hops]
      have hzero : ∀ (l : List Op), (∀ a ∈ l, ¬ isDeleteFor id a = true) →
          l.countP (isDeleteFor id) = 0 := fun l hl => List.countP_eq_zero.mpr hl
      rw [List.countP_append, List.countP_append, List.countP_append]
      rw [hzero ((List.insertionSort createLe cs0).map Op.create) (by
        intro a ha
        obtain ⟨c, _, rfl⟩ := List.mem_map.mp ha
        simp [isDeleteFor])]
      rw [hzero ((List.insertionSort moveLe ms0).map Op.move) (by
        intro a ha
        obtain ⟨c, _, rfl⟩ := List.mem_map.mp ha
        simp [isDeleteFor])]
      rw [hzero ((List.insertionSort renameLe rs0).map Op.rename) (by
        intro a ha
        obtain ⟨c, _, rfl⟩ := List.mem_map.mp ha
        simp [isDeleteFor])]
      simp only [Nat.zero_add]
      rw [List.countP_map]
      have hperm := (List.perm_insertionSort deleteLe
        (collectDeletes t.nodes t.originalNodes t.originalPaths)).countP_eq
          (isDeleteFor id ∘ Op.delete)
      rw [hperm]
      have hcomp : (isDeleteFor id ∘ Op.delete) = (fun d => decide (d.id = id)) := rfl
      rw [hcomp]
      unfold collectDeletes
      rw [foldl_emit_eq_append, List.nil_append]
      rw [countP_filterMap_id _ (deleteOpFor_id t.originalNodes t.originalPaths _) id _
        (deletedIdsOf_nodup t.nodes t.originalNodes hnodup)]
      have hmem : id ∈ deletedIdsOf t.nodes t.originalNodes := by
        rw [mem_deletedIdsOf]
        constructor
        · unfold mapHas; rw [horig]; rfl
        · exact hmiss
      cases hp : orig.parentId with
      | none =>
        have hsome : (deleteOpFor t.originalNodes t.originalPaths
            (deletedIdsOf t.nodes t.originalNodes) id).isSome = true := by
          unfold deleteOpFor
          rw [horig]
          dsimp only
          rw [hp]
          simp
        rw [if_pos ⟨hmem, hsome⟩]
      | some p =>
        by_cases hcond : p ≠ "" ∧ mapHas t.originalNodes p = true ∧ mapHas t.nodes p = false
        · have hnone : (deleteOpFor t.originalNodes t.originalPaths
              (deletedIdsOf t.nodes t.originalNodes) id) = none := by
            unfold deleteOpFor
            rw [horig]
            dsimp only
            rw [hp]
            have hmemp : p ∈ deletedIdsOf t.nodes t.originalNodes :=
              (mem_deletedIdsOf _ _ _).mpr ⟨hcond.2.1, hcond.2.2⟩
            simp [List.elem_eq_true_of_mem hmemp, hmemp, hcond.1]
          rw [hnone]
          simp [hcond]
        · have hsome : (deleteOpFor t.originalNodes t.originalPaths
              (deletedIdsOf t.nodes t.originalNodes) id).isSome = true := by
            unfold deleteOpFor
            rw [horig]
            dsimp only
            rw [hp]
            by_cases hpempty : p = ""
            · simp [hpempty]
            · have hnotmem : p ∉ deletedIdsOf t.nodes t.originalNodes := by
                intro hmemp
                obtain ⟨h1, h2⟩ := (mem_deletedIdsOf _ _ _).mp hmemp
                exact hcond ⟨hpempty, h1, h2⟩
              have hcontains : (deletedIdsOf t.nodes t.originalNodes).contains p = false := by
                simpa using hnotmem
              simp [hcontains]
              exact fun _ => hnotmem
          rw [if_pos ⟨hmem, hsome⟩]
          simp [hcond]

/-- C2 witness: the amended theorem at the staged tree's deleted file `b`
(whose original parent `r` is still present): exactly one delete op. -/
theorem c2_delete_op_emission_witness :
    stagedDiff.ops.countP (isDeleteFor "b") = 1 :=
  c2_delete_op_emission stagedTree "t" "b"
    { name := "gone.txt", parentId := some "r", kind := NodeKind.file }
    stagedDiff { stagedTree with diffSequence := 1 }
    (by decide) (by decide) (by decide) (by decide)

/-- The counterexample state is reachable: loading the snapshot gives
`c2T0`, and moving `p` to the root yields `c2T1`. -/
theorem c2T1_reached :
    (buildSandboxTree c2Snapshot 8).isSome = true ∧
    afterMutation (moveNode c2T0 "p" "root") = c2T1 := by decide

/-- Deleting `x` from `c2T1` yields `c2T2`. -/
theorem c2T2_reached : afterDelete (deleteNode c2T1 "x") = c2T2 := by decide

/-- Deleting `g` from `c2T2` yields `c2T3`. -/
theorem c2T3_reached : afterDelete (deleteNode c2T2 "g") = c2T3 := by decide

/-- C2 counterexample: in the reachable state `c2T3`, the id `x` is deleted
and so is `g`, an ancestor of `x` along the original parent chain
(`x`'s original parent is `p`, whose original parent is `g`); the claim then
demands that NO delete op be emitted for `x`, yet the generated diff carries
exactly one `Delete` op for `x`. The source only checks the immediate
original parent (`p`, which survives) against the deleted set. -/
theorem c2_ancestor_delete_counterexample :
    (mapGet? c2T3.originalNodes "x").map (fun o => o.parentId) = some (some "p") ∧
    (mapGet? c2T3.originalNodes "p").map (fun o => o.parentId) = some (some "g") ∧
    mapHas c2T3.nodes "x" = false ∧
    mapHas c2T3.originalNodes "x" = true ∧
    mapHas c2T3.nodes "g" = false ∧
    mapHas c2T3.originalNodes "g" = true ∧
    (generateDiff c2T3 "t").map (fun pr => pr.1.ops.countP (isDeleteFor "x")) = .ok 1 := by
  decide

/-! ### Association-list lemmas -/

/-- Auxiliary: the key predicate is preserved by the in-place update. -/
theorem findKey_map_update (m : List (String × α)) (k k' : String) (v : α) :
    List.find? (fun p => p.1 = k') (m.map (fun p => if p.1 = k then (k, v) else p)) =
      Option.map (fun p => if p.1 = k then (k, v) else p)
        (List.find? (fun p => p.1 = k') m) := by
  rw [List.find?_map]
  have hpred : ((fun (p : String × α) => decide (p.1 = k')) ∘
      fun p => if p.1 = k then (k, v) else p) = fun p => decide (p.1 = k') := by
    funext p
    simp only [Function.comp]
    by_cases hp : p.1 = k
    · simp [hp]
    · simp [hp]
  rw [hpred]

/-- Looking up the key just set yields the new value. -/
theorem mapGet?_mapSet_self (m : List (String × α)) (k : String) (v : α) :
    mapGet? (mapSet m k v) k = some v := by
  unfold mapSet
  by_cases h : mapHas m k = true
  · rw [if_pos h]
    unfold mapGet?
    rw [findKey_map_update]
    unfold mapHas mapGet? at h
    cases hf : m.find? (fun p => p.1 = k) with
    | none => rw [hf] at h; simp at h
    | some e =>
      have hkey : e.1 = k := by simpa using List.find?_some hf
      simp [hkey]
  · rw [if_neg h]
    unfold mapHas mapGet? at h
    unfold mapGet?
    rw [List.find?_append]
    cases hf : m.find? (fun p => p.1 = k) with
    | some e => rw [hf] at h; simp at h
    | none => simp

/-- Setting one key leaves every other key's lookup unchanged. -/
theorem mapGet?_mapSet_ne (m : List (String × α)) (k k' : String) (v : α)
    (h : k' ≠ k) : mapGet? (mapSet m k v) k' = mapGet? m k' := by
  unfold mapSet
  by_cases hh : mapHas m k = true
  · rw [if_pos hh]
    unfold mapGet?
    rw [findKey_map_update]
    cases hf : m.find? (fun p => p.1 = k') with
    | none => simp
    | some e =>
      have hkey : e.1 = k' := by simpa using List.find?_some hf
      have hne : ¬ e.1 = k := by rw [hkey]; exact h
      simp [hne]
  · rw [if_neg hh]
    unfold mapGet?
    rw [List.find?_append]
    cases hf : m.find? (fun p => p.1 = k') with
    | some e => simp
    | none =>
      rw [List.find?_cons_of_neg _ (by simpa using fun he => h he.symm), List.find?_nil]
      simp

/-- Folding one more digit multiplies the value by ten. -/
theorem digitsValue_append (l : List Nat) (d : Nat) :
    digitsValue (l ++ [d]) = digitsValue l * 10 + d := by
  unfold digitsValue
  rw [List.foldl_append]
  rfl

/-- The digit expansion evaluates back to the number (round trip). -/
theorem digitsValue_toDecimalAux :
    ∀ (fuel n : Nat), n ≤ fuel → digitsValue (toDecimalAux fuel n) = n := by
  intro fuel
  induction fuel with
  | zero =>
    intro n hn
    interval_cases n
    decide
  | succ fuel ih =>
    intro n hn
    unfold toDecimalAux
    by_cases h : n < 10
    · rw [if_pos h]
      unfold digitsValue
      simp
    · rw [if_neg h]
      rw [digitsValue_append]
      have hlt : n / 10 ≤ fuel := by
        have h1 : n / 10 < n := Nat.div_lt_self (by omega) (by omega)
        omega
      rw [ih (n / 10) hlt]
      have hmod := Nat.div_add_mod n 10
      omega

/-- `toDecimal` is injective. -/
theorem toDecimal_injective (m n : Nat) (h : toDecimal m = toDecimal n) : m = n := by
  have hm := digitsValue_toDecimalAux m m (le_refl m)
  have hn := digitsValue_toDecimalAux n n (le_refl n)
  unfold toDecimal at h
  rw [← hm, ← hn, h]

/-- Digits produced by the expansion are below ten. -/
theorem toDecimalAux_lt_ten :
    ∀ (fuel n : Nat), ∀ d ∈ toDecimalAux fuel n, d < 10 := by
  intro fuel
  induction fuel with
  | zero =>
    intro n d hd
    unfold toDecimalAux at hd
    simp only [List.mem_singleton] at hd
    subst hd
    exact Nat.mod_lt _ (by omega)
  | succ fuel ih =>
    intro n d hd
    unfold toDecimalAux at hd
    by_cases h : n < 10
    · rw [if_pos h] at hd
      simp only [List.mem_singleton] at hd
      omega
    · rw [if_neg h] at hd
      rcases List.mem_append.mp hd with h1 | h2
      · exact ih (n / 10) d h1
      · simp only [List.mem_singleton] at h2
        subst h2
        exact Nat.mod_lt _ (by omega)

/-- `digitVal` undoes `decChar` on digits. -/
theorem digitVal_decChar : ∀ d, d < 10 → digitVal (decChar d) = d := by
  intro d hd
  interval_cases d <;> decide

/-- `natToString` is injective. -/
theorem natToString_injective (m n : Nat) (h : natToString m = natToString n) : m = n := by
  unfold natToString at h
  have hdata : (toDecimal m).map decChar = (toDecimal n).map decChar := congrArg String.data h
  apply toDecimal_injective
  have hm : ((toDecimal m).map decChar).map digitVal = toDecimal m := by
    rw [List.map_map]
    apply List.map_congr_left ?_ |>.trans (List.map_id _)
    intro d hd
    exact digitVal_decChar d (toDecimalAux_lt_ten m m d hd)
  have hn : ((toDecimal n).map decChar).map digitVal = toDecimal n := by
    rw [List.map_map]
    apply List.map_congr_left ?_ |>.trans (List.map_id _)
    intro d hd
    exact digitVal_decChar d (toDecimalAux_lt_ten n n d hd)
  rw [← hm, ← hn, hdata]

/-- Strings with equal character data are equal. -/
theorem string_data_ext (a b : String) (h : a.data = b.data) : a = b := by
  cases a
  cases b
  exact congrArg String.mk h

/-- The suffixed candidate names are pairwise distinct across suffixes. -/
theorem suffixCandidate_injective (stem ext : String) (k1 k2 : Nat)
    (h : suffixCandidate stem ext k1 = suffixCandidate stem ext k2) : k1 = k2 := by
  unfold suffixCandidate at h
  have hdata := congrArg String.data h
  simp only [String.data_append] at hdata
  have h1 := List.append_cancel_right hdata
  have h2 := List.append_cancel_left h1
  exact natToString_injective k1 k2 (string_data_ext _ _ h2)

/-- A failed search means every tried suffix collides. -/
theorem suffixSearch_none_collides (siblings : List SandboxNode)
    (excludeId : Option String) (stem ext : String) :
    ∀ (fuel start : Nat),
      suffixSearch siblings excludeId stem ext fuel start = none →
      ∀ i < fuel, collidesAt siblings excludeId stem ext (start + i) = true := by
  intro fuel
  induction fuel with
  | zero => intro start _ i hi; omega
  | succ fuel ih =>
    intro start hnone i hi
    unfold suffixSearch at hnone
    by_cases hc : collidesAt siblings excludeId stem ext start = true
    · rw [if_pos (by simpa [collidesAt] using hc)] at hnone
      rcases Nat.eq_zero_or_pos i with hz | hpos
      · subst hz; simpa using hc
      · have := ih (start + 1) hnone (i - 1) (by omega)
        have harith : start + 1 + (i - 1) = start + i := by omega
        rw [harith] at this
        exact this
    · rw [if_neg (by simpa [collidesAt] using hc)] at hnone
      exact absurd hnone (by simp)

/-- A successful search returns the candidate of the least collision-free
suffix at or above the start. -/
theorem suffixSearch_some_least (siblings : List SandboxNode)
    (excludeId : Option String) (stem ext : String) :
    ∀ (fuel start : Nat) (c : String),
      suffixSearch siblings excludeId stem ext fuel start = some c →
      ∃ k, start ≤ k ∧
        collidesAt siblings excludeId stem ext k = false ∧
        c = suffixCandidate stem ext k ∧
        ∀ j, start ≤ j → j < k → collidesAt siblings excludeId stem ext j = true := by
  intro fuel
  induction fuel with
  | zero => intro start c h; exact absurd h (by simp [suffixSearch])
  | succ fuel ih =>
    intro start c h
    unfold suffixSearch at h
    by_cases hc : collidesAt siblings excludeId stem ext start = true
    · rw [if_pos (by simpa [collidesAt] using hc)] at h
      obtain ⟨k, hk1, hk2, hk3, hk4⟩ := ih (start + 1) c h
      refine ⟨k, by omega, hk2, hk3, ?_⟩
      intro j hj1 hj2
      rcases Nat.eq_or_lt_of_le hj1 with hz | hgt
      · rw [← hz]; exact hc
      · exact hk4 j (by omega) hj2
    · rw [if_neg (by simpa [collidesAt] using hc)] at h
      simp only [Option.some.injEq] at h
      refine ⟨start, le_refl start, by simpa using hc, h.symm, ?_⟩
      intro j hj1 hj2
      omega

/-- With fuel `siblings.length + 1` the search cannot fail: the candidates
are pairwise distinct, so at most `siblings.length` of them can collide
(pigeonhole against the sibling-name list). -/
theorem suffixSearch_isSome (siblings : List SandboxNode)
    (excludeId : Option String) (stem ext : String) :
    (suffixSearch siblings excludeId stem ext (siblings.length + 1) 1).isSome = true := by
  cases hs : suffixSearch siblings excludeId stem ext (siblings.length + 1) 1 with
  | some c => simp
  | none =>
    exfalso
    have hcol := suffixSearch_none_collides siblings excludeId stem ext _ _ hs
    -- the n + 1 candidates 1 .. n + 1 all appear among the sibling names
    set names := siblings.map (fun s => s.name) with hnames
    have hmemnames : ∀ i < siblings.length + 1,
        suffixCandidate stem ext (1 + i) ∈ names := by
      intro i hi
      have := hcol i hi
      unfold collidesAt at this
      obtain ⟨s, hsmem, hsprop⟩ := List.any_eq_true.mp this
      simp only [Bool.and_eq_true, decide_eq_true_eq] at hsprop
      rw [hnames]
      exact List.mem_map.mpr ⟨s, hsmem, hsprop.1⟩
    have hnodup : ((List.range (siblings.length + 1)).map
        (fun i => suffixCandidate stem ext (1 + i))).Nodup := by
      refine (List.nodup_map_iff_inj_on (List.nodup_range _)).mpr ?_
      intro i _ j _ hij
      have := suffixCandidate_injective stem ext (1 + i) (1 + j) hij
      omega
    have hsub : ((List.range (siblings.length + 1)).map
        (fun i => suffixCandidate stem ext (1 + i))) ⊆ names := by
      intro x hx
      obtain ⟨i, hi, rfl⟩ := List.mem_map.mp hx
      exact hmemnames i (List.mem_range.mp hi)
    have hlen := (hnodup.subperm hsub).length_le
    simp only [List.length_map, List.length_range, hnames] at hlen
    omega

/-- Under a name collision, suffix-mode conflict resolution returns the
candidate of the least free suffix. -/
theorem resolveNameConflict_suffix (t : SandboxTree) (pid nm : String)
    (parent : SandboxNode) (hpar : mapGet? t.nodes pid = some parent)
    (hfolder : parent.kind = NodeKind.folder)
    (hcoll : ∃ s ∈ siblingsOf t parent, s.name = nm) :
    ∃ k, 1 ≤ k ∧
      collidesAt (siblingsOf t parent) none (splitStemAndExtension nm).stem
        (splitStemAndExtension nm).extension k = false ∧
      (∀ j, 1 ≤ j → j < k →
        collidesAt (siblingsOf t parent) none (splitStemAndExtension nm).stem
          (splitStemAndExtension nm).extension j = true) ∧
      resolveNameConflict t pid nm
        { kind := NodeKind.folder, strategy := some ConflictStrategy.suffix } =
        .ok (suffixCandidate (splitStemAndExtension nm).stem
          (splitStemAndExtension nm).extension k, none) := by
  have hassert : assertFolder t pid = .ok parent := by
    unfold assertFolder
    rw [hpar]
    simp [hfolder]
  unfold resolveNameConflict
  rw [hassert]
  obtain ⟨s0, hs0mem, hs0name⟩ := hcoll
  have hfind : ((siblingsOf t parent).find? (fun s =>
      s.name = nm ∧ notExcluded none s.id)).isSome = true := by
    rw [List.find?_isSome]
    exact ⟨s0, hs0mem, by simp [hs0name, notExcluded]⟩
  cases hf : (siblingsOf t parent).find? (fun s => s.name = nm ∧ notExcluded none s.id) with
  | none => rw [hf] at hfind; simp at hfind
  | some conflict =>
    have hsearch := suffixSearch_isSome (siblingsOf t parent) none
      (splitStemAndExtension nm).stem (splitStemAndExtension nm).extension
    cases hsrch : suffixSearch (siblingsOf t parent) none (splitStemAndExtension nm).stem
        (splitStemAndExtension nm).extension ((siblingsOf t parent).length + 1) 1 with
    | none => rw [hsrch] at hsearch; simp at hsearch
    | some c =>
      obtain ⟨k, hk1, hk2, hk3, hk4⟩ := suffixSearch_some_least _ _ _ _ _ _ _ hsrch
      refine ⟨k, hk1, hk2, fun j hj1 hj2 => hk4 j hj1 hj2, ?_⟩
      show (match (siblingsOf t parent).find? (fun s =>
          s.name = nm ∧ notExcluded none s.id) with
        | none => _ | some conflict => _) = _
      rw [hf]
      unfold siblingsOf at hsrch
      simp only []
      simp [hsrch, hk3]

/-- Under a name collision, throw-mode conflict resolution raises
`NameAlreadyExists`. -/
theorem resolveNameConflict_throw (t : SandboxTree) (pid nm : String)
    (parent : SandboxNode) (hpar : mapGet? t.nodes pid = some parent)
    (hfolder : parent.kind = NodeKind.folder)
    (hcoll : ∃ s ∈ siblingsOf t parent, s.name = nm) :
    resolveNameConflict t pid nm
      { kind := NodeKind.file, strategy := some ConflictStrategy.throwOnConflict } =
      .error (.nameAlreadyExists nm) := by
  have hassert : assertFolder t pid = .ok parent := by
    unfold assertFolder
    rw [hpar]
    simp [hfolder]
  unfold resolveNameConflict
  rw [hassert]
  obtain ⟨s0, hs0mem, hs0name⟩ := hcoll
  have hfind : ((siblingsOf t parent).find? (fun s =>
      s.name = nm ∧ notExcluded none s.id)).isSome = true := by
    rw [List.find?_isSome]
    exact ⟨s0, hs0mem, by simp [hs0name, notExcluded]⟩
  cases hf : (siblingsOf t parent).find? (fun s => s.name = nm ∧ notExcluded none s.id) with
  | none => rw [hf] at hfind; simp at hfind
  | some conflict =>
    show (match (siblingsOf t parent).find? (fun s =>
        s.name = nm ∧ notExcluded none s.id) with
      | none => _ | some conflict => _) = _
    rw [hf]
    simp only []
    simp

/-- C5: creating a node under a folder with a colliding valid name: a folder
create succeeds and is assigned the candidate `stem-k[.extension]` of the
FIRST free suffix `k` (`name-1`, `name-2`, … when the name has no
extension), registered in the tree under the fresh node's id; a file create
fails with `NameAlreadyExists` and leaves the tree exactly as it was (no
node is created). -/
theorem c5_createNode_name_conflict (t : SandboxTree) (pid nm : String)
    (parent : SandboxNode) (hpar : mapGet? t.nodes pid = some parent)
    (hfolder : parent.kind = NodeKind.folder)
    (hvalid : ensureValidName nm = .ok ())
    (hcoll : ∃ s ∈ siblingsOf t parent, s.name = nm) :
    (∃ t' node k,
      createNode t pid { name := nm, kind := NodeKind.folder } = .ok (t', node) ∧
      1 ≤ k ∧
      collidesAt (siblingsOf t parent) none (splitStemAndExtension nm).stem
        (splitStemAndExtension nm).extension k = false ∧
      (∀ j, 1 ≤ j → j < k →
        collidesAt (siblingsOf t parent) none (splitStemAndExtension nm).stem
          (splitStemAndExtension nm).extension j = true) ∧
      node.name = suffixCandidate (splitStemAndExtension nm).stem
        (splitStemAndExtension nm).extension k ∧
      node.kind = NodeKind.folder ∧
      node.parentId = some parent.id ∧
      mapGet? t'.nodes node.id = some node) ∧
    createNode t pid { name := nm, kind := NodeKind.file } =
      .error (.nameAlreadyExists nm, t) := by
  have hassert : assertFolder t pid = .ok parent := by
    unfold assertFolder
    rw [hpar]
    simp [hfolder]
  constructor
  · obtain ⟨k, hk1, hk2, hk3, hrnc⟩ :=
      resolveNameConflict_suffix t pid nm parent hpar hfolder hcoll
    unfold createNode
    rw [hassert, hvalid]
    simp only [reduceIte]
    rw [hrnc]
    simp only [generateLocalId]
    set nodeId := "local-" ++ natToString t.nextLocalId with hnodeId
    set cand := suffixCandidate (splitStemAndExtension nm).stem
      (splitStemAndExtension nm).extension k with hcand
    set node : SandboxNode :=
      { id := nodeId, name := cand, kind := NodeKind.folder, parentId := some parent.id,
        children := [], fromSnapshot := false, originalName := none,
        originalParentId := none } with hnode
    by_cases hid : nodeId = parent.id
    · simp only [if_pos hid]
      refine ⟨_, node, k, rfl, hk1, hk2, hk3, rfl, rfl, rfl, ?_⟩
      exact mapGet?_mapSet_self _ _ _
    · simp only [if_neg hid]
      refine ⟨_, node, k, rfl, hk1, hk2, hk3, rfl, rfl, rfl, ?_⟩
      rw [mapGet?_mapSet_ne _ parent.id node.id _ hid]
      exact mapGet?_mapSet_self _ _ _
  · obtain hrnc := resolveNameConflict_throw t pid nm parent hpar hfolder hcoll
    unfold createNode
    rw [hassert, hvalid]
    rw [if_neg (by decide : ¬ (NodeKind.file = NodeKind.folder))]
    rw [hrnc]

/-- C5 witness: creating `x.txt` under the staged root, which already has a
file of that name — the folder create succeeds with the first free suffix
candidate (`x-1.txt`) and the file create fails, leaving the tree intact. -/
theorem c5_createNode_name_conflict_witness :
    (∃ t' node k,
      createNode stagedTree "r" { name := "x.txt", kind := NodeKind.folder } =
        .ok (t', node) ∧
      1 ≤ k ∧
      collidesAt (siblingsOf stagedTree stagedRoot) none
        (splitStemAndExtension "x.txt").stem (splitStemAndExtension "x.txt").extension k =
        false ∧
      (∀ j, 1 ≤ j → j < k →
        collidesAt (siblingsOf stagedTree stagedRoot) none
          (splitStemAndExtension "x.txt").stem (splitStemAndExtension "x.txt").extension j =
          true) ∧
      node.name = suffixCandidate (splitStemAndExtension "x.txt").stem
        (splitStemAndExtension "x.txt").extension k ∧
      node.kind = NodeKind.folder ∧
      node.parentId = some stagedRoot.id ∧
      mapGet? t'.nodes node.id = some node) ∧
    createNode stagedTree "r" { name := "x.txt", kind := NodeKind.file } =
      .error (.nameAlreadyExists "x.txt", stagedTree) :=
  c5_createNode_name_conflict stagedTree "r" "x.txt" stagedRoot
    (by decide) (by decide) (by decide) (by decide)

/-- Sanity: the folder create at the witness input indeed yields the name
`x-1.txt` (suffix before the extension). -/
theorem c5_suffix_before_extension_eval :
    (createNode stagedTree "r" { name := "x.txt", kind := NodeKind.folder }).map
      (fun p => p.2.name) = .ok "x-1.txt" := by decide

/-- A looked-up node of a children-closed tree has only present children. -/
theorem childrenClosed_lookup (tree : SandboxTree) (hcc : childrenClosed tree = true)
    (id : String) (node : SandboxNode) (h : mapGet? tree.nodes id = some node) :
    ∀ c ∈ node.children, mapHas tree.nodes c = true := by
  intro c hc
  unfold childrenClosed at hcc
  rw [List.all_eq_true] at hcc
  unfold mapGet? at h
  cases hf : tree.nodes.find? (fun p => p.1 = id) with
  | none => rw [hf] at h; simp at h
  | some e =>
    rw [hf] at h
    simp only [Option.map_some', Option.some.injEq] at h
    have hmem := List.mem_of_find?_eq_some hf
    have := hcc e hmem
    rw [List.all_eq_true] at this
    exact this c (by rw [h]; exact hc)

/-- Setting a key preserves the presence of every key. -/
theorem mapHas_mapSet_of_mapHas (m : List (String × α)) (k x : String) (v : α)
    (h : mapHas m x = true) : mapHas (mapSet m k v) x = true := by
  by_cases hx : x = k
  · subst hx
    unfold mapHas
    rw [mapGet?_mapSet_self]
    rfl
  · unfold mapHas
    rw [mapGet?_mapSet_ne m k x v hx]
    exact h

/-- A present node can always be reparented (the only throw is the entry
lookup), and presence of every key is preserved. -/
theorem reparent_ok (tree : SandboxTree) (id target : String)
    (h : mapHas tree.nodes id = true) :
    ∃ t', reparent tree id target = .ok t' ∧
      ∀ x, mapHas tree.nodes x = true → mapHas t'.nodes x = true := by
  unfold reparent
  unfold mapHas at h
  cases hg : mapGet? tree.nodes id with
  | none => rw [hg] at h; simp at h
  | some node =>
    refine ⟨_, rfl, ?_⟩
    intro x hx
    have step1 : ∀ (t1 : SandboxTree), (∀ y, mapHas tree.nodes y = true → mapHas t1.nodes y = true) →
        ∀ y, mapHas tree.nodes y = true →
          mapHas (match mapGet? t1.nodes y with | _ => t1).nodes y = true := by
      intro t1 ht1 y hy
      exact ht1 y hy
    -- walk the three sequential updates
    set t1 := (match node.parentId with
      | some pid =>
        if pid ≠ "" then
          match mapGet? tree.nodes pid with
          | some parent =>
            let parent1 := { parent with children := parent.children.filter (fun childId => childId ≠ id) }
            { tree with nodes := mapSet tree.nodes pid parent1 }
          | none => tree
        else tree
      | none => tree) with ht1def
    have h1 : ∀ y, mapHas tree.nodes y = true → mapHas t1.nodes y = true := by
      intro y hy
      rw [ht1def]
      cases node.parentId with
      | none => exact hy
      | some pid =>
        by_cases hpid : pid ≠ ""
        · simp only [if_pos hpid]
          cases mapGet? tree.nodes pid with
          | none => exact hy
          | some parent => exact mapHas_mapSet_of_mapHas _ _ _ _ hy
        · simp only [if_neg hpid]
          exact hy
    set t2 := (match mapGet? t1.nodes id with
      | some node1 => { t1 with nodes := mapSet t1.nodes id { node1 with parentId := some target } }
      | none => t1) with ht2def
    have h2 : ∀ y, mapHas t1.nodes y = true → mapHas t2.nodes y = true := by
      intro y hy
      rw [ht2def]
      cases mapGet? t1.nodes id with
      | none => exact hy
      | some node1 => exact mapHas_mapSet_of_mapHas _ _ _ _ hy
    have h3 : ∀ y, mapHas t2.nodes y = true →
        mapHas (match mapGet? t2.nodes target with
          | some np => { t2 with nodes := mapSet t2.nodes target { np with children := np.children ++ [id] } }
          | none => t2).nodes y = true := by
      intro y hy
      cases mapGet? t2.nodes target with
      | none => exact hy
      | some np => exact mapHas_mapSet_of_mapHas _ _ _ _ hy
    exact h3 x (h2 x (h1 x hx))

/-- A looked-up node of a key-consistent tree has the looked-up id. -/
theorem mapGet?_keyConsistent (tree : SandboxTree) (hkey : keyConsistent tree = true)
    (id : String) (v : SandboxNode) (h : mapGet? tree.nodes id = some v) : v.id = id := by
  unfold mapGet? at h
  cases hf : tree.nodes.find? (fun p => p.1 = id) with
  | none => rw [hf] at h; simp at h
  | some e =>
    rw [hf] at h
    simp only [Option.map_some', Option.some.injEq] at h
    have hk := List.find?_some hf
    have hmem := List.mem_of_find?_eq_some hf
    unfold keyConsistent at hkey
    rw [List.all_eq_true] at hkey
    have := hkey e hmem
    simp only [decide_eq_true_eq] at hk this
    rw [← h, this, hk]

/-- `reparentAll` succeeds whenever every child id is present, and preserves
presence of every key. -/
theorem reparentAll_ok (cs : List String) (tree : SandboxTree) (targetId : String)
    (h : ∀ c ∈ cs, mapHas tree.nodes c = true) :
    ∃ t', reparentAll tree cs targetId = .ok t' ∧
      ∀ x, mapHas tree.nodes x = true → mapHas t'.nodes x = true := by
  induction cs generalizing tree with
  | nil => exact ⟨tree, rfl, fun _ hx => hx⟩
  | cons c rest ih =>
    obtain ⟨t1, h1, hpres⟩ := reparent_ok tree c targetId (h c (List.mem_cons_self c rest))
    obtain ⟨t', h', hpres'⟩ := ih t1 (fun d hd => hpres d (h d (List.mem_cons_of_mem _ hd)))
    refine ⟨t', ?_, fun x hx => hpres' x (hpres x hx)⟩
    unfold reparentAll
    rw [h1]
    exact h'

/-- The plain (non-merge) move tail never fails when the moved id exists. -/
theorem moveNodePlain_ok (tree : SandboxTree) (id name targetId : String)
    (h : mapHas tree.nodes id = true) :
    ∃ r, moveNode.moveNodePlain tree id name targetId = .ok r := by
  unfold moveNode.moveNodePlain
  unfold mapHas at h
  cases hg : mapGet? tree.nodes id with
  | none => rw [hg] at h; simp at h
  | some node1 =>
    dsimp only
    have hpresent : mapHas (mapSet tree.nodes id ({ node1 with name := name })) id = true := by
      unfold mapHas
      rw [mapGet?_mapSet_self]
      rfl
    obtain ⟨t2, h2, _⟩ := reparent_ok { tree with nodes := mapSet tree.nodes id ({ node1 with name := name }) } id targetId hpresent
    rw [h2]
    exact ⟨_, rfl⟩

/-- `deleteNode` never fails when the id is present. -/
theorem deleteNode_ok (tree : SandboxTree) (id : String) (h : mapHas tree.nodes id = true) :
    ∃ t2, deleteNode tree id = .ok t2 := by
  unfold deleteNode
  unfold mapHas at h
  cases hg : mapGet? tree.nodes id with
  | none => rw [hg] at h; simp at h
  | some node => exact ⟨_, rfl⟩

/-- A failing `createNode` carries the input tree unchanged. -/
theorem createNode_error_eq (tree : SandboxTree) (pid : String) (payload : CreatePayload)
    (e : TreeError) (t' : SandboxTree) (h : createNode tree pid payload = .error (e, t')) :
    t' = tree := by
  unfold createNode at h
  split at h
  · simp only [Except.error.injEq, Prod.mk.injEq] at h
    exact h.2.symm
  · split at h
    · simp only [Except.error.injEq, Prod.mk.injEq] at h
      exact h.2.symm
    · split at h
      · simp only [Except.error.injEq, Prod.mk.injEq] at h
        exact h.2.symm
      · exact Except.noConfusion h

/-- A failing `renameNode` carries the input tree unchanged. -/
theorem renameNode_error_eq (tree : SandboxTree) (id nm : String)
    (e : TreeError) (t' : SandboxTree) (h : renameNode tree id nm = .error (e, t')) :
    t' = tree := by
  unfold renameNode at h
  split at h
  · simp only [Except.error.injEq, Prod.mk.injEq] at h
    exact h.2.symm
  · split at h
    · simp only [Except.error.injEq, Prod.mk.injEq] at h
      exact h.2.symm
    · split at h
      · split at h
        · exact Except.noConfusion h
        · split at h
          · simp only [Except.error.injEq, Prod.mk.injEq] at h
            exact h.2.symm
          · exact Except.noConfusion h
      · exact Except.noConfusion h

/-- A failing `deleteNode` carries the input tree unchanged. -/
theorem deleteNode_error_eq (tree : SandboxTree) (id : String)
    (e : TreeError) (t' : SandboxTree) (h : deleteNode tree id = .error (e, t')) :
    t' = tree := by
  unfold deleteNode at h
  split at h
  · simp only [Except.error.injEq, Prod.mk.injEq] at h
    exact h.2.symm
  · exact Except.noConfusion h

/-- On a children-closed, key-consistent tree, a failing `moveNode` carries
the input tree unchanged (the only post-mutation throws would come from the
merge loop, which cannot fail under closure). -/
theorem moveNode_error_eq (tree : SandboxTree)
    (hcc : childrenClosed tree = true) (hkey : keyConsistent tree = true)
    (id target : String) (e : TreeError) (t' : SandboxTree)
    (h : moveNode tree id target = .error (e, t')) : t' = tree := by
  unfold moveNode at h
  split at h
  · simp only [Except.error.injEq, Prod.mk.injEq] at h
    exact h.2.symm
  · rename_i node hg
    split at h
    · exact Except.noConfusion h
    · split at h
      · simp only [Except.error.injEq, Prod.mk.injEq] at h
        exact h.2.symm
      · split at h
        · simp only [Except.error.injEq, Prod.mk.injEq] at h
          exact h.2.symm
        · simp only [Except.error.injEq, Prod.mk.injEq] at h
          exact h.2.symm
        · split at h
          · simp only [Except.error.injEq, Prod.mk.injEq] at h
            exact h.2.symm
          · rename_i targetParent hparent
            split at h
            · simp only [Except.error.injEq, Prod.mk.injEq] at h
              exact h.2.symm
            · rename_i name mergeTarget? hres
              split at h
              · rename_i mergeTarget
                split at h
                · split at h
                  · rename_i e0 hra
                    obtain ⟨t1', hok, _⟩ := reparentAll_ok node.children tree mergeTarget.id
                      (childrenClosed_lookup tree hcc id node hg)
                    rw [hok] at hra
                    exact Except.noConfusion hra
                  · rename_i t1 hra
                    split at h
                    · rename_i e0 hdel
                      obtain ⟨t1', hok, hpres⟩ := reparentAll_ok node.children tree mergeTarget.id
                        (childrenClosed_lookup tree hcc id node hg)
                      rw [hok] at hra
                      injection hra with h1
                      subst h1
                      have hid : node.id = id := mapGet?_keyConsistent tree hkey id node hg
                      have hpresent : mapHas t1'.nodes node.id = true := by
                        rw [hid]
                        apply hpres
                        unfold mapHas
                        rw [hg]
                        rfl
                      obtain ⟨t2, hdok⟩ := deleteNode_ok t1' node.id hpresent
                      rw [hdok] at hdel
                      exact Except.noConfusion hdel
                    · exact Except.noConfusion h
                · obtain ⟨r, hok⟩ := moveNodePlain_ok tree id name targetParent.id
                    (by unfold mapHas; rw [hg]; rfl)
                  rw [hok] at h
                  exact Except.noConfusion h
              · obtain ⟨r, hok⟩ := moveNodePlain_ok tree id name targetParent.id
                  (by unfold mapHas; rw [hg]; rfl)
                rw [hok] at h
                exact Except.noConfusion h

/-- C6: whenever `createNode`, `renameNode`, `moveNode` or `deleteNode`
raises an error on a children-closed, key-consistent tree, the tree carried
at the throw point is exactly the input tree — no node, child list, name,
parentId or counter has been partially mutated. -/
theorem c6_error_atomicity (tree : SandboxTree)
    (hcc : childrenClosed tree = true) (hkey : keyConsistent tree = true) :
    (∀ pid payload e t', createNode tree pid payload = .error (e, t') → t' = tree) ∧
    (∀ id nm e t', renameNode tree id nm = .error (e, t') → t' = tree) ∧
    (∀ id target e t', moveNode tree id target = .error (e, t') → t' = tree) ∧
    (∀ id e t', deleteNode tree id = .error (e, t') → t' = tree) :=
  ⟨fun pid payload e t' h => createNode_error_eq tree pid payload e t' h,
   fun id nm e t' h => renameNode_error_eq tree id nm e t' h,
   fun id target e t' h => moveNode_error_eq tree hcc hkey id target e t' h,
   fun id e t' h => deleteNode_error_eq tree id e t' h⟩

theorem c6_error_atomicity_witness :
    childrenClosed demoTree = true ∧ keyConsistent demoTree = true ∧ c6ErrTree = demoTree :=
  ⟨by decide, by decide,
    (c6_error_atomicity demoTree (by decide) (by decide)).2.2.1 "n-2" "n-2"
      (TreeError.notAFolder "readme.md") c6ErrTree (by decide)⟩

/-! ### C7: abort propagation in the apply loop -/

/-- The status field of a recorded result is the status passed in. -/
theorem recordResult_status (op : Op) (st : OpStatus) (tp : String) (m : Option String) :
    (recordResult op st tp m).status = st := rfl

/-- A terminal lock-section outcome has status `aborted` exactly when its
aborted flag is set. -/
theorem lockSection_terminal_iff (env : FsEnv) (trace : List FsEvent) (p : String)
    (st : OpStatus) (msg : String) (fl : Bool) (ev : List FsEvent)
    (h : lockSection env trace p = some (.terminal st msg fl, ev)) :
    (st = OpStatus.aborted ↔ fl = true) := by
  unfold lockSection at h
  dsimp only at h
  split at h
  · split at h
    · exact Option.noConfusion h
    · rename_i d events
      split at h
      · simp only [Option.some.injEq, Prod.mk.injEq, LockOutcome.terminal.injEq] at h
        obtain ⟨⟨h1, h2, h3⟩, h4⟩ := h
        subst h1; subst h3
        decide
      · simp only [Option.some.injEq, Prod.mk.injEq, LockOutcome.terminal.injEq] at h
        obtain ⟨⟨h1, h2, h3⟩, h4⟩ := h
        subst h1; subst h3
        decide
      · simp at h
  · split at h
    · simp only [Option.some.injEq, Prod.mk.injEq, LockOutcome.terminal.injEq] at h
      obtain ⟨⟨h1, h2, h3⟩, h4⟩ := h
      subst h1; subst h3
      decide
    · simp at h

/-- `applyFileOp` flags abortion exactly when it records status `aborted`. -/
theorem applyFileOp_aborted_iff (env : FsEnv) (trace : List FsEvent) (op : Op)
    (targetPath lockPath : String) (finalAction : FsEvent) (mkdirDir : Option String)
    (res : OpResult) (ev : List FsEvent) (fl : Bool)
    (h : applyFileOp env trace op targetPath lockPath finalAction mkdirDir = some (res, ev, fl)) :
    (res.status = OpStatus.aborted ↔ fl = true) := by
  unfold applyFileOp at h
  dsimp only at h
  split at h
  · exact Option.noConfusion h
  · rename_i status message flag events heq
    simp only [Option.some.injEq, Prod.mk.injEq] at h
    obtain ⟨h1, h2, h3⟩ := h
    rw [← h1, ← h3, recordResult_status]
    split at heq
    · exact lockSection_terminal_iff env trace lockPath status message flag events heq
    · simp at heq
  · rename_i events heq
    repeat' split at h
    all_goals simp only [Option.some.injEq, Prod.mk.injEq] at h
    all_goals obtain ⟨h1, h2, h3⟩ := h
    all_goals rw [← h1, ← h3, recordResult_status]
    all_goals decide

/-- The per-type body flags abortion exactly when it records `aborted`. -/
theorem applyOneBody_aborted_iff (env : FsEnv) (b r : String) (trace : List FsEvent)
    (op : Op) (res : OpResult) (ev : List FsEvent) (fl : Bool)
    (h : applyOneBody env b r trace op = some (res, ev, fl)) :
    (res.status = OpStatus.aborted ↔ fl = true) := by
  unfold applyOneBody at h
  match op with
  | .create c =>
    dsimp only at h
    repeat' split at h
    all_goals simp only [Option.some.injEq, Prod.mk.injEq] at h
    all_goals obtain ⟨h1, h2, h3⟩ := h
    all_goals rw [← h1, ← h3, recordResult_status]
    all_goals decide
  | .move m =>
    exact applyFileOp_aborted_iff env trace (Op.move m) _ _ _ _ res ev fl h
  | .rename r0 =>
    dsimp only at h
    split at h
    · exact Option.noConfusion h
    · rename_i res0 events0 flag0 heq
      simp only [Option.some.injEq, Prod.mk.injEq] at h
      obtain ⟨h1, h2, h3⟩ := h
      rw [← h1, ← h3]
      exact applyFileOp_aborted_iff env _ (Op.rename r0) _ _ _ _ res0 events0 flag0 heq
  | .delete d =>
    exact applyFileOp_aborted_iff env trace (Op.delete d) _ _ _ _ res ev fl h

/-- One loop step flags abortion exactly when it records `aborted`. -/
theorem applyOne_aborted_iff (env : FsEnv) (b r : String) (trace : List FsEvent)
    (aborted : Bool) (op : Op) (info : Option DryRunOpReport)
    (res : OpResult) (ev : List FsEvent) (fl : Bool)
    (h : applyOne env b r trace aborted op info = some (res, ev, fl)) :
    (res.status = OpStatus.aborted ↔ fl = true) := by
  unfold applyOne at h
  split at h
  · simp only [Option.some.injEq, Prod.mk.injEq] at h
    obtain ⟨h1, h2, h3⟩ := h
    rw [← h1, ← h3, recordResult_status]
    decide
  · split at h
    · split at h
      · simp only [Option.some.injEq, Prod.mk.injEq] at h
        obtain ⟨h1, h2, h3⟩ := h
        rw [← h1, ← h3, recordResult_status]
        decide
      · exact applyOneBody_aborted_iff env b r trace op res ev fl h
    · exact applyOneBody_aborted_iff env b r trace op res ev fl h

/-- Once the aborted flag is set, the rest of the loop records every op as
`aborted` with no filesystem events, and the flag stays set. -/
theorem applyLoop_all_aborted (env : FsEnv) (b r : String)
    (pairs : List (Op × Option DryRunOpReport)) :
    ∀ (trace : List FsEvent) (results : List (OpResult × List FsEvent)) (flagEnd : Bool),
    applyLoop env b r pairs trace true = some (results, flagEnd) →
    results = pairs.map
      (fun p => (recordResult p.1 OpStatus.aborted (describeOp b r p.1) none,
        ([] : List FsEvent))) ∧ flagEnd = true := by
  induction pairs with
  | nil =>
    intro trace results flagEnd h
    unfold applyLoop at h
    simp only [Option.some.injEq, Prod.mk.injEq] at h
    exact ⟨h.1.symm, h.2.symm⟩
  | cons p rest ih =>
    intro trace results flagEnd h
    unfold applyLoop at h
    rw [show applyOne env b r trace true p.1 p.2 =
        some (recordResult p.1 OpStatus.aborted (describeOp b r p.1) none, [], true) from rfl] at h
    dsimp only at h
    split at h
    · exact Option.noConfusion h
    · rename_i restResults fEnd heq
      simp only [Option.some.injEq, Prod.mk.injEq] at h
      obtain ⟨hres, hflag⟩ := h
      obtain ⟨hrest, hfe⟩ := ih (trace ++ []) restResults fEnd heq
      subst hrest
      exact ⟨hres.symm, hflag.symm.trans hfe⟩

/-- Abort propagation through the loop: any result recorded `aborted` at
position `i` forces every later position to be recorded `aborted` with an
empty event list. -/
theorem applyLoop_abort_propagates (env : FsEnv) (b r : String)
    (pairs : List (Op × Option DryRunOpReport)) :
    ∀ (trace : List FsEvent) (ab : Bool) (results : List (OpResult × List FsEvent))
      (flagEnd : Bool),
    applyLoop env b r pairs trace ab = some (results, flagEnd) →
    ∀ i ri evi, results.get? i = some (ri, evi) → ri.status = OpStatus.aborted →
    ∀ j rj evj, i < j → results.get? j = some (rj, evj) →
    rj.status = OpStatus.aborted ∧ evj = [] := by
  induction pairs with
  | nil =>
    intro trace ab results flagEnd h i ri evi hgi
    unfold applyLoop at h
    simp only [Option.some.injEq, Prod.mk.injEq] at h
    rw [← h.1] at hgi
    simp at hgi
  | cons p rest ih =>
    intro trace ab results flagEnd h i ri evi hgi habi j rj evj hij hgj
    unfold applyLoop at h
    split at h
    · exact Option.noConfusion h
    · rename_i res events ab1 heq1
      split at h
      · exact Option.noConfusion h
      · rename_i restResults fEnd heq2
        simp only [Option.some.injEq, Prod.mk.injEq] at h
        obtain ⟨hres, hflag⟩ := h
        subst hres
        cases j with
        | zero => exact absurd hij (Nat.not_lt_zero i)
        | succ j' =>
          cases i with
          | zero =>
            simp only [List.get?_cons_zero, Option.some.injEq, Prod.mk.injEq] at hgi
            have hflagtrue : ab1 = true := by
              have := applyOne_aborted_iff env b r trace ab p.1 p.2 res events ab1 heq1
              rw [← hgi.1] at habi
              exact this.mp habi
            subst hflagtrue
            obtain ⟨hrest, _⟩ := applyLoop_all_aborted env b r rest (trace ++ events)
              restResults fEnd heq2
            simp only [List.get?_cons_succ] at hgj
            rw [hrest] at hgj
            rw [List.get?_map] at hgj
            cases hq : rest.get? j' with
            | none => rw [hq] at hgj; simp at hgj
            | some q =>
              rw [hq] at hgj
              simp only [Option.map_some', Option.some.injEq, Prod.mk.injEq] at hgj
              exact ⟨by rw [← hgj.1, recordResult_status], hgj.2.symm⟩
          | succ i' =>
            simp only [List.get?_cons_succ] at hgi hgj
            exact ih (trace ++ events) ab1 restResults fEnd heq2 i' ri evi hgi habi
              j' rj evj (Nat.lt_of_succ_lt_succ hij) hgj

/-- C7: once any operation of an `applyDiff` run is recorded with status
`aborted`, every later operation is also recorded `aborted` and its
attributed filesystem-event list is empty — no dry-run re-check, lock probe
or mutation is performed for it. -/
theorem c7_abort_propagation (env : FsEnv) (diff : Diff) (resp : ApplyResponse)
    (opEvents : List (List FsEvent))
    (h : applyDiff env diff = some (resp, opEvents))
    (i j : Nat) (hij : i < j) (ri rj : OpResult) (evj : List FsEvent)
    (hi : resp.results.get? i = some ri) (hab : ri.status = OpStatus.aborted)
    (hj : resp.results.get? j = some rj) (hev : opEvents.get? j = some evj) :
    rj.status = OpStatus.aborted ∧ evj = [] := by
  unfold applyDiff at h
  dsimp only at h
  split at h
  · simp only [Option.some.injEq, Prod.mk.injEq] at h
    rw [← h.1] at hi
    simp at hi
  · split at h
    · exact Option.noConfusion h
    · rename_i resultsEvents abortedEnd heq
      simp only [Option.some.injEq, Prod.mk.injEq] at h
      obtain ⟨hresp, hevents⟩ := h
      rw [← hresp] at hi hj
      rw [← hevents] at hev
      simp only [List.get?_map] at hi hj hev
      cases hpi : resultsEvents.get? i with
      | none => rw [hpi] at hi; simp at hi
      | some pi =>
        rw [hpi] at hi
        simp only [Option.map_some', Option.some.injEq] at hi
        cases hpj : resultsEvents.get? j with
        | none => rw [hpj] at hj; simp at hj
        | some pj =>
          rw [hpj] at hj hev
          simp only [Option.map_some', Option.some.injEq] at hj hev
          have := applyLoop_abort_propagates env diff.baseRoot (inferRootName diff) _ _ _ _ _
            heq i pi.1 pi.2 (by rw [hpi]) (by rw [hi, hab]) j pj.1 pj.2 hij (by rw [hpj])
          rw [hj] at this
          exact ⟨this.1, by rw [← hev]; exact this.2⟩

theorem c7_abort_propagation_witness :
    c7RJ.status = OpStatus.aborted ∧ c7EvJ = [] :=
  c7_abort_propagation c7Env c7Diff c7Out.1 c7Out.2 (by decide) 0 1 (by decide)
    c7RI c7RJ c7EvJ (by decide) (by decide) (by decide) (by decide)

/-- The restored node keeps the fragment's id. -/
theorem finalNodeOf_id (s : SerializedSandboxNode) (p : Option String) :
    (finalNodeOf s p).id = s.sid := by
  cases s
  rfl

/-- Replacing the recorded parent by itself is the identity. -/
theorem withParent_self (s : SerializedSandboxNode) (p : Option String)
    (h : s.parentOf = p) : s.withParent p = s := by
  cases s
  dsimp only [SerializedSandboxNode.parentOf] at h
  subst h
  rfl

/-- The attach step touches no map entry other than the parent's. -/
theorem restoreAttach_get (tree : SandboxTree) (id : String) (parentId : Option String)
    (y : String) (hpy : parentId ≠ some y) :
    mapGet? (restoreAttach tree id parentId).nodes y = mapGet? tree.nodes y := by
  unfold restoreAttach
  cases parentId with
  | none => rfl
  | some pid =>
    have hne : pid ≠ y := fun hc => hpy (by rw [hc])
    by_cases hp : pid ≠ ""
    · simp only [if_pos hp]
      cases mapGet? tree.nodes pid with
      | none => rfl
      | some parent => exact mapGet?_mapSet_ne tree.nodes pid y _ (fun hc => hne hc.symm)
    · simp only [if_neg hp]

/-- The counter step never touches the node map. -/
theorem restoreCounter_nodes (tree : SandboxTree) (id : String) (fs : Bool) :
    (restoreCounter tree id fs).nodes = tree.nodes := by
  unfold restoreCounter
  split
  · split
    · split
      · rfl
      · rfl
    · rfl
  · rfl

/-- `restoreSubtree` modifies no map entry outside the fragment's ids and
the supplied parent's entry. -/
theorem restore_frame (fuel : Nat) :
    ∀ (s : SerializedSandboxNode) (tr : SandboxTree) (p : Option String)
      (t' : SandboxTree) (root : SandboxNode),
    restoreSubtree fuel tr p s = some (t', root) →
    ∀ y, y ∉ fragIds fuel s → p ≠ some y →
    mapGet? t'.nodes y = mapGet? tr.nodes y := by
  induction fuel with
  | zero =>
    intro s tr p t' root h
    unfold restoreSubtree at h
    exact Option.noConfusion h
  | succ fuel ih =>
    intro s tr p t' root h y hy hpy
    cases s with
    | mk id name kind pid0 fs onm opar cs =>
      simp only [fragIds, List.mem_cons, List.mem_flatMap, not_or, not_exists] at hy
      push_neg at hy
      obtain ⟨hyid, hycs⟩ := hy
      unfold restoreSubtree at h
      dsimp only at h
      split at h
      · exact Option.noConfusion h
      · rename_i t4 heqf
        simp only [Option.some.injEq, Prod.mk.injEq] at h
        obtain ⟨ht', hroot⟩ := h
        rw [← ht']
        have hfold : ∀ (ds : List SerializedSandboxNode) (u v : SandboxTree),
            (∀ c ∈ ds, y ∉ fragIds fuel c) →
            ds.foldlM (fun t c => Option.map Prod.fst (restoreSubtree fuel t (some id) c)) u =
              some v →
            mapGet? v.nodes y = mapGet? u.nodes y := by
          intro ds
          induction ds with
          | nil =>
            intro u v _ hfe
            simp only [List.foldlM_nil, Option.pure_def, Option.some.injEq] at hfe
            rw [hfe]
          | cons d rest ihd =>
            intro u v hds hfe
            simp only [List.foldlM_cons] at hfe
            cases hr : restoreSubtree fuel u (some id) d with
            | none => rw [hr] at hfe; simp at hfe
            | some pr =>
              rw [hr] at hfe
              simp only [Option.map_some', Option.bind_some] at hfe
              have h1 := ih d u (some id) pr.1 pr.2 (by rw [hr]) y
                (hds d (List.mem_cons_self d rest))
                (fun hc => hyid (Option.some.inj hc).symm)
              have h2 := ihd pr.1 v (fun c hc => hds c (List.mem_cons_of_mem d hc)) hfe
              rw [h2, h1]
        have h3 := hfold cs _ t4 hycs heqf
        dsimp only
        rw [mapGet?_mapSet_ne t4.nodes id y _ hyid, h3,
          restoreCounter_nodes, restoreAttach_get _ _ _ _ hpy]
        exact mapGet?_mapSet_ne tr.nodes id y _ hyid

/-- Frame property of the child-restoration fold. -/
theorem restore_fold_frame (fuel : Nat) (id : String) (ds : List SerializedSandboxNode) :
    ∀ (u v : SandboxTree),
    ds.foldlM (fun t c => Option.map Prod.fst (restoreSubtree fuel t (some id) c)) u = some v →
    ∀ y, (∀ c ∈ ds, y ∉ fragIds fuel c) → y ≠ id →
    mapGet? v.nodes y = mapGet? u.nodes y := by
  induction ds with
  | nil =>
    intro u v hfe y _ _
    simp only [List.foldlM_nil, Option.pure_def, Option.some.injEq] at hfe
    rw [hfe]
  | cons d rest ihd =>
    intro u v hfe y hds hyid
    simp only [List.foldlM_cons] at hfe
    cases hr : restoreSubtree fuel u (some id) d with
    | none => rw [hr] at hfe; simp at hfe
    | some pr =>
      rw [hr] at hfe
      simp only [Option.map_some', Option.bind_some] at hfe
      have h1 := restore_frame fuel d u (some id) pr.1 pr.2 (by rw [hr]) y
        (hds d (List.mem_cons_self d rest)) (fun hc => hyid (Option.some.inj hc).symm)
      have h2 := ihd pr.1 v hfe y (fun c hc => hds c (List.mem_cons_of_mem d hc)) hyid
      rw [h2, h1]

/-- `restoredIn` reads only the fragment's own entries. -/
theorem restoredIn_congr (fuel : Nat) :
    ∀ (s : SerializedSandboxNode) (m1 m2 : List (String × SandboxNode)) (p : Option String),
    (∀ y ∈ fragIds fuel s, mapGet? m1 y = mapGet? m2 y) →
    restoredIn fuel m1 p s = restoredIn fuel m2 p s := by
  induction fuel with
  | zero => intro s m1 m2 p _; rfl
  | succ fuel ih =>
    intro s m1 m2 p hagree
    cases s with
    | mk id name kind pid0 fs onm opar cs =>
      unfold restoredIn
      dsimp only [SerializedSandboxNode.sid, SerializedSandboxNode.childrenOf]
      have hid : mapGet? m1 id = mapGet? m2 id := hagree id (by simp [fragIds])
      rw [hid]
      congr 1
      have hall : ∀ (ds : List SerializedSandboxNode),
          (∀ c ∈ ds, ∀ y ∈ fragIds fuel c, mapGet? m1 y = mapGet? m2 y) →
          ds.all (fun c => restoredIn fuel m1 (some id) c) =
            ds.all (fun c => restoredIn fuel m2 (some id) c) := by
        intro ds
        induction ds with
        | nil => intro _; rfl
        | cons d rest ihd =>
          intro hds
          simp only [List.all_cons]
          rw [ih d m1 m2 (some id) (hds d (List.mem_cons_self d rest)),
            ihd (fun c hc => hds c (List.mem_cons_of_mem d hc))]
      exact hall cs (fun c hc y hy => hagree y (by
        simp only [fragIds, List.mem_cons, List.mem_flatMap]
        exact Or.inr ⟨c, hc, hy⟩))

/-- After a successful restore, the whole fragment is materialised in the
resulting node map and the returned node is the restored root. -/
theorem restore_restoredIn (fuel : Nat) :
    ∀ (s : SerializedSandboxNode) (tr : SandboxTree) (p : Option String)
      (t' : SandboxTree) (root : SandboxNode),
    (fragIds fuel s).Nodup →
    restoreSubtree fuel tr p s = some (t', root) →
    restoredIn fuel t'.nodes p s = true ∧ root = finalNodeOf s p := by
  induction fuel with
  | zero =>
    intro s tr p t' root _ h
    unfold restoreSubtree at h
    exact Option.noConfusion h
  | succ fuel ih =>
    intro s tr p t' root hnd h
    cases s with
    | mk id name kind pid0 fs onm opar cs =>
      simp only [fragIds, List.nodup_cons] at hnd
      obtain ⟨hid_nin, hnd'⟩ := hnd
      unfold restoreSubtree at h
      dsimp only at h
      split at h
      · exact Option.noConfusion h
      · rename_i t4 heqf
        simp only [Option.some.injEq, Prod.mk.injEq] at h
        obtain ⟨ht', hroot⟩ := h
        refine ⟨?_, hroot.symm⟩
        unfold restoredIn
        dsimp only [SerializedSandboxNode.sid, SerializedSandboxNode.childrenOf]
        rw [Bool.and_eq_true]
        constructor
        · rw [decide_eq_true_eq, ← ht']
          dsimp only
          exact mapGet?_mapSet_self t4.nodes id _
        · rw [List.all_eq_true]
          intro c hc
          have hfold_main : ∀ (ds : List SerializedSandboxNode) (u v : SandboxTree),
              (ds.flatMap (fragIds fuel)).Nodup →
              id ∉ ds.flatMap (fragIds fuel) →
              ds.foldlM (fun t c => Option.map Prod.fst (restoreSubtree fuel t (some id) c))
                u = some v →
              ∀ d ∈ ds, restoredIn fuel v.nodes (some id) d = true := by
            intro ds
            induction ds with
            | nil => intro u v _ _ _ d hd; exact absurd hd (List.not_mem_nil d)
            | cons d rest ihd =>
              intro u v hnodup hidnin hfe e he
              simp only [List.flatMap_cons, List.nodup_append] at hnodup
              obtain ⟨hnd_d, hnd_rest, hdisj⟩ := hnodup
              simp only [List.flatMap_cons, List.mem_append] at hidnin
              push_neg at hidnin
              obtain ⟨hid_d, hid_rest⟩ := hidnin
              simp only [List.foldlM_cons] at hfe
              cases hr : restoreSubtree fuel u (some id) d with
              | none => rw [hr] at hfe; simp at hfe
              | some pr =>
                rw [hr] at hfe
                simp only [Option.map_some', Option.bind_some] at hfe
                rcases List.mem_cons.mp he with he1 | he2
                · subst he1
                  have h1 := (ih e u (some id) pr.1 pr.2 hnd_d (by rw [hr])).1
                  have hcongr := restoredIn_congr fuel e v.nodes pr.1.nodes (some id)
                    (fun y hy => restore_fold_frame fuel id rest pr.1 v hfe y
                      (fun c2 hc2 hyc2 => hdisj hy (List.mem_flatMap.mpr ⟨c2, hc2, hyc2⟩))
                      (fun hyid => hid_d (hyid ▸ hy)))
                  rw [hcongr]
                  exact h1
                · exact ihd pr.1 v hnd_rest hid_rest hfe e he2
          have hmain := hfold_main cs _ t4 hnd' hid_nin heqf c hc
          have hcongr2 := restoredIn_congr fuel c t'.nodes t4.nodes (some id)
            (fun y hy => by
              rw [← ht']
              dsimp only
              exact mapGet?_mapSet_ne t4.nodes id y _
                (fun hyid => hid_nin (List.mem_flatMap.mpr ⟨c, hc, hyid ▸ hy⟩)))
          rw [hcongr2]
          exact hmain

/-- Serialising a fully materialised fragment reproduces it, with the root's
recorded parent replaced by the restore parent. -/
theorem serialise_of_restoredIn (fuel : Nat) :
    ∀ (s : SerializedSandboxNode) (tr : SandboxTree) (p : Option String),
    restoredIn fuel tr.nodes p s = true →
    parentConsistent fuel s = true →
    serialiseSubtree tr s.sid fuel = .ok (s.withParent p) := by
  induction fuel with
  | zero =>
    intro s tr p hrin _
    exact absurd hrin (by unfold restoredIn; simp)
  | succ fuel ih =>
    intro s tr p hrin hpc
    cases s with
    | mk id name kind pid0 fs onm opar cs =>
      unfold restoredIn at hrin
      dsimp only [SerializedSandboxNode.sid, SerializedSandboxNode.childrenOf] at hrin
      rw [Bool.and_eq_true, decide_eq_true_eq, List.all_eq_true] at hrin
      obtain ⟨hget, hall⟩ := hrin
      unfold parentConsistent at hpc
      rw [List.all_eq_true] at hpc
      unfold serialiseSubtree
      dsimp only [SerializedSandboxNode.sid]
      rw [hget]
      have hmapM : ∀ (ds : List SerializedSandboxNode),
          (∀ c ∈ ds, restoredIn fuel tr.nodes (some id) c = true) →
          (∀ c ∈ ds, (decide (c.parentOf = some id) && parentConsistent fuel c) = true) →
          (ds.map SerializedSandboxNode.sid).mapM
            (fun childId => serialiseSubtree tr childId fuel) = Except.ok ds := by
        intro ds
        induction ds with
        | nil => intro _ _; rfl
        | cons d rest ihd =>
          intro h1 h2
          have hd2 := h2 d (List.mem_cons_self d rest)
          rw [Bool.and_eq_true, decide_eq_true_eq] at hd2
          have hd1 := ih d tr (some id) (h1 d (List.mem_cons_self d rest)) hd2.2
          simp only [List.map_cons, List.mapM_cons]
          rw [hd1, withParent_self d (some id) hd2.1,
            ihd (fun c hc => h1 c (List.mem_cons_of_mem d hc))
              (fun c hc => h2 c (List.mem_cons_of_mem d hc))]
          rfl
      have hm := hmapM cs (fun c hc => hall c hc) (fun c hc => hpc c hc)
      dsimp only [finalNodeOf, SerializedSandboxNode.withParent]
      rw [hm]
      rfl

/-- C10: restoring a fragment with fresh, duplicate-free, parent-consistent
ids under a parent present in the tree and then serialising the returned
node reproduces the fragment exactly, except that the root's recorded
parentId becomes the supplied parent — names, kinds, snapshot flags,
original fields and child order are all preserved. -/
theorem c10_restore_serialise_roundtrip (t : SandboxTree) (parentId : String)
    (s : SerializedSandboxNode) (fuel : Nat) (t' : SandboxTree) (root : SandboxNode)
    (hnodup : (fragIds fuel s).Nodup)
    (hfresh : ∀ x ∈ fragIds fuel s, mapHas t.nodes x = false)
    (hpar : mapHas t.nodes parentId = true)
    (hpc : parentConsistent fuel s = true)
    (hres : restoreSubtree fuel t (some parentId) s = some (t', root)) :
    serialiseSubtree t' root.id fuel = .ok (s.withParent (some parentId)) := by
  obtain ⟨hrin, hroot⟩ := restore_restoredIn fuel s t (some parentId) t' root hnodup hres
  rw [hroot, finalNodeOf_id]
  exact serialise_of_restoredIn fuel s t' (some parentId) hrin hpc

theorem c10_restore_serialise_roundtrip_witness :
    serialiseSubtree c10Res.1 c10Res.2.id 3 =
      .ok (c10Frag.withParent (some "n-1")) :=
  c10_restore_serialise_roundtrip demoTree "n-1" c10Frag 3 c10Res.1 c10Res.2
    (by decide) (by decide) (by decide) (by decide) (by decide)
